import Mathlib

/-!
# GpuJoin kernel (cuda_gpujoin.h): shallow embedding

One execution group of `L` lanes walks the join depths 0..N+1.  Shared
variables (`src_read_pos`, `read_pos[]`, `write_pos[]`, `dst_base_*`) are
fields of the group state; the private arrays of `gpujoin_main`
(`l_state[]`, `matched[]`) and the error code of `kcxt` are indexed by lane.
The pseudo-stack is a flat word memory addressed from `pstack_base`.
Arithmetic the source performs on `cl_uint` is reduced modulo 2^32.
The macro `assert` is declared outside src: `Env.assert_enabled` tells whether
a failed assertion stops the kernel, and a stopped kernel is a state with
`stopped` set.
-/

namespace GpuJoin

/-! ## Machine words -/

/-- Largest value of a `cl_uint`. -/
def UINT_MAX : Nat := 4294967295

/-- Truncation of a result to `cl_uint`. -/
def u32 (x : Nat) : Nat := x % 4294967296

/-- Subtraction of `cl_uint` values (wraps around). -/
def u32sub (a b : Nat) : Nat := (a % 4294967296 + 4294967296 - b % 4294967296) % 4294967296

/-- Update of one cell of an array held as a function. -/
def upd {α : Type} (f : Nat → α) (i : Nat) (v : α) : Nat → α :=
  fun j => if j = i then v else f j

/-- Update of one cell of a per-lane array (lane, index). -/
def upd2 {α : Type} (f : Nat → Nat → α) (lane i : Nat) (v : α) : Nat → Nat → α :=
  fun l j => if l = lane ∧ j = i then v else f l j

/-- Every lane stores `v` into cell `i` of its private array. -/
def updAll {α : Type} (f : Nat → Nat → α) (i : Nat) (v : α) : Nat → Nat → α :=
  fun l j => if j = i then v else f l j

/-- Every lane stores its own value `v lane` into cell `i` of its private array. -/
def updEach {α : Type} (f : Nat → Nat → α) (i : Nat) (v : Nat → α) : Nat → Nat → α :=
  fun l j => if j = i then v l else f l j

/-! ## Group-wide primitives -/

/-- The barrier vote `__syncthreads_count(pred)`: number of lanes of the group
whose predicate is true. -/
def syncthreads_count (L : Nat) (pred : Nat → Bool) : Nat :=
  (List.range L).countP pred

/-- The barrier vote `__syncthreads_or(pred)`. -/
def syncthreads_or (L : Nat) (pred : Nat → Bool) : Bool :=
  (List.range L).any pred

/-- Modelled from the spec: `pgstromStairlikeBinaryCount` (declared outside
src), the cooperative prefix sum of §4.2: a lane's result is the number of
lower-indexed lanes whose predicate is true; the total is `syncthreads_count`. -/
def pgstromStairlikeBinaryCount (pred : Nat → Bool) (lane : Nat) : Nat :=
  (List.range lane).countP pred

/-- Modelled from the spec: `pgstromStairlikeSum` (declared outside src), the
cooperative prefix sum of §4.6: a lane's result is the sum of the values of
the lower-indexed lanes, as a `cl_uint`. -/
def pgstromStairlikeSum (v : Nat → Nat) (lane : Nat) : Nat :=
  u32 (((List.range lane).map v).sum)

/-- Total handed back by `pgstromStairlikeSum` through its second argument. -/
def stairlikeTotal (L : Nat) (v : Nat → Nat) : Nat :=
  u32 (((List.range L).map v).sum)

/-- Modelled from the spec: `STROM_SET_ERROR` (declared outside src): the
first error a lane reports is kept (§3, terminal error status captured on
first failure); code 0 is success. -/
def set_error (old code : Nat) : Nat := if old = 0 then code else old

/-- Modelled from the spec: the out-of-space error kind of §7; the enum is
declared outside src. -/
def StromError_DataStoreNoSpace : Nat := 2001

/-! ## Inner relations -/

/-- One element of `kern_multirels.chunks[]`. -/
structure Chunk where
  chunk_offset : Nat
  ojmap_offset : Nat
  is_nestloop : Bool
  left_outer : Bool
  right_outer : Bool

/-- A `kern_hashitem`: the fields the kernel reads. -/
structure HashItem where
  hash : Nat
  rowid : Nat
  /-- offset of `khitem->t` from the head of the hash table -/
  t_off : Nat
  /-- offset of `khitem->t.htup` from the head of the hash table -/
  htup_off : Nat

/-- The inner `kern_data_store` of one depth, seen through the accessor
macros the kernel uses (the macros are declared outside src). A pointer to a
hash item is the chain that starts at this item: `KERN_HASH_NEXT_ITEM` is
the tail, the null pointer is the empty chain. -/
structure InnerKds where
  nitems : Nat
  hash_min : Nat
  hash_max : Nat
  /-- offset of `KERN_DATA_STORE_TUPITEM(kds, i)->htup` from the head -/
  tupitem_htup : Nat → Nat
  /-- Chain that `KERN_HASH_FIRST_ITEM(kds, hash)` points to. -/
  hash_first : Nat → List HashItem
  /-- Chain starting at the item whose `t` member lies at the given offset. -/
  item_at : Nat → List HashItem

/-- Result of `gpujoin_join_quals`: the return value, the flag stored through
`joinquals_matched`, and the error code the evaluation raised (0: none). -/
structure QualOut where
  result : Bool
  joinquals_matched : Bool
  err : Nat

/-- Result of `gpujoin_hash_value`. -/
structure HashOut where
  hash : Nat
  is_null_keys : Bool
  err : Nat

/-- Result of `gpuscan_quals_eval`. -/
structure ScanOut where
  visible : Bool
  err : Nat

/-- Result of `gpujoin_projection` followed by `compute_heaptuple_size`. -/
structure ProjOut where
  size : Nat
  err : Nat

/-- Everything the kernel only reads: launch geometry, `kern_gpujoin` geometry,
`kern_multirels`, the source and destination descriptors, the constants and
macros declared outside src, and the generated callbacks. -/
structure Env where
  /-- Lanes per group, `get_local_size()`. -/
  L : Nat
  pstack_nrooms : Nat
  num_rels : Nat
  kmrels_length : Nat
  ojmaps_length : Nat
  cuda_dindex : Nat
  chunks : Nat → Chunk
  /-- The store behind `KERN_MULTIRELS_INNER_KDS(kmrels, depth)`. -/
  inner : Nat → InnerKds
  /-- Source format: `kds_src->format == KDS_FORMAT_ROW`. -/
  src_is_row : Bool
  src_nitems : Nat
  /-- offset of `KERN_DATA_STORE_TUPITEM(kds_src, i)` from the head -/
  src_tupitem : Nat → Nat
  /-- Block format: `KERN_DATA_STORE_PARTSZ(kds_src)`. -/
  part_sz : Nat
  /-- Block format: `PageGetMaxOffsetNumber` of the page of a part. -/
  page_nlines : Nat → Nat
  /-- Block format: offset of the line pointer (part, line) when
  `ItemIdIsNormal`, else none. -/
  page_item : Nat → Nat → Option Nat
  /-- Destination: `kds_dst->length` and `KERN_DATA_STORE_HEAD_LENGTH(kds_dst)`. -/
  dst_length : Nat
  dst_head_length : Nat
  /-- The alignment macros and `offsetof(kern_tupitem, htup)`. -/
  stromalign : Nat → Nat
  maxalign : Nat → Nat
  tupitem_htup_offset : Nat
  /-- Callbacks of the code generator. -/
  gpuscan_quals_eval : Nat → ScanOut
  gpujoin_join_quals : Nat → List Nat → Nat → QualOut
  gpujoin_hash_value : Nat → List Nat → HashOut
  gpujoin_projection : List Nat → ProjOut
  /-- Error code left by `form_kern_heaptuple` for a combination (0: none). -/
  form_kern_heaptuple : List Nat → Nat
  /-- The macro `assert` is declared outside src: true when a failed assertion
  stops the kernel, false when the build expands the macro to nothing. It is
  consulted at the assertions of lines 461 and 777; the other assertions of
  the file are not modelled. -/
  assert_enabled : Bool
  /-- The constant `sizeof(Datum)`; the type `Datum` is declared outside src. -/
  sizeof_Datum : Nat

/-- The macro `KERN_MULTIRELS_OUTER_JOIN_MAP(kmrels, depth)`: byte offset of the
map from the head of `kmrels`, or none (NULL) when the relation is not
right-outer. -/
def KERN_MULTIRELS_OUTER_JOIN_MAP (env : Env) (depth : Nat) : Option Nat :=
  if (env.chunks (depth - 1)).right_outer then
    some (env.kmrels_length + env.cuda_dindex * env.ojmaps_length
          + (env.chunks (depth - 1)).ojmap_offset)
  else none

/-- The macro `KERN_MULTIRELS_LEFT_OUTER_JOIN(kmrels, depth)`. -/
def KERN_MULTIRELS_LEFT_OUTER_JOIN (env : Env) (depth : Nat) : Bool :=
  (env.chunks (depth - 1)).left_outer

/-- The macro `PSTACK_DEPTH(d)` of `gpujoin_main`, as a word offset from
`pstack_base` (the product is a `cl_uint`). -/
def PSTACK_DEPTH (env : Env) (d : Nat) : Nat :=
  u32 (env.pstack_nrooms * (d * (d + 1))) / 2

/-! ## Group state -/

/-- Mutable state of one execution group. -/
structure State where
  /-- shared `src_read_pos` -/
  src_read_pos : Nat
  /-- the global counter `kgjoin->src_read_pos` -/
  kg_src_read_pos : Nat
  read_pos : Nat → Nat
  write_pos : Nat → Nat
  dst_base_nitems : Nat
  dst_base_usage : Nat
  /-- private `l_state[]` of each lane: lane, depth -/
  l_state : Nat → Nat → Nat
  /-- private `matched[]` of each lane: lane, depth -/
  matched : Nat → Nat → Bool
  /-- `kcxt.e.errcode` of each lane -/
  errcode : Nat → Nat
  /-- pseudo-stack words, addressed from `pstack_base` -/
  pstack : Nat → Nat
  /-- outer-join map bytes, addressed from the head of `kmrels` -/
  ojmap : Nat → Bool
  /-- `kds_dst->nitems`, `kds_dst->usage` -/
  dst_nitems : Nat
  dst_usage : Nat
  /-- row-index array of `kds_dst` -/
  dst_rowindex : Nat → Nat
  /-- tuple bodies of `kds_dst` by offset: the combination serialized there -/
  dst_tuple : Nat → Option (List Nat)
  /-- trace of the combinations passed to `gpujoin_projection`, oldest first;
  written only, never read by the kernel model -/
  proj_calls : List (List Nat)
  /-- a failed assertion has stopped the kernel: the state is final -/
  stopped : Bool

/-- Words `base .. base+n-1` of a word memory. -/
def readWords (mem : Nat → Nat) (base n : Nat) : List Nat :=
  (List.range n).map (fun k => mem (base + k))

/-- Store a sequence of words at `base`. -/
def writeWords (mem : Nat → Nat) (base : Nat) (ws : List Nat) : Nat → Nat :=
  fun a => if base ≤ a ∧ a < base + ws.length then ws.getD (a - base) 0 else mem a

/-- The stores of all lanes of a pass, lane by lane: lane `l` stores `entry l`
at `addr l` when `en l`. -/
def storeLanes (L : Nat) (en : Nat → Bool) (addr : Nat → Nat) (entry : Nat → List Nat)
    (mem : Nat → Nat) : Nat → Nat :=
  (List.range L).foldl
    (fun m l => if en l then writeWords m (addr l) (entry l) else m) mem

/-! ## gpujoin_rewind_stack -/

/-- Body of one turn of the do-while loop of `gpujoin_rewind_stack` once
`read_pos[depth] < write_pos[depth]` failed: lane 0 zeroes both cursors, every
lane clears its scan state and matched flag of that depth. -/
def rewind_reset (d : Nat) (s : State) : State :=
  { s with
    read_pos := upd s.read_pos d 0
    write_pos := upd s.write_pos d 0
    l_state := updAll s.l_state d 0
    matched := updAll s.matched d false }

/-- The function `gpujoin_rewind_stack(depth, l_state, matched)`. The source
asserts `depth > 0`; the do-while loop decrements first, so the argument
`d + 1` inspects depth `d`, and loops on while the depth is positive. -/
def gpujoin_rewind_stack : Nat → State → Int × State
  | 0, s => (0, s)
  | d + 1, s =>
    if s.read_pos d < s.write_pos d then ((d : Int), s)
    else gpujoin_rewind_stack d (rewind_reset d s)

/-! ## gpujoin_load_source -/

/-- The row a lane fetches in `gpujoin_load_source`: its `t_offset` when
`htup` is not NULL. -/
def load_fetch (env : Env) (s : State) (lane : Nat) : Option Nat :=
  if env.src_is_row then
    let row_index := u32 (s.src_read_pos + lane)
    if row_index < env.src_nitems then some (env.src_tupitem row_index) else none
  else
    let part_sz := env.part_sz
    let n_parts := env.L / part_sz
    let part_id := u32 (s.src_read_pos + lane / part_sz)
    let line_no := u32 (u32 (lane % part_sz + u32 (s.l_state lane 0 * part_sz)) + 1)
    if part_id < env.src_nitems ∧ lane < u32 (part_sz * n_parts) then
      if line_no ≤ env.page_nlines part_id then env.page_item part_id line_no
      else none
    else none

/-- The value `outer_unit_sz` of `gpujoin_main`. -/
def outer_unit_sz (env : Env) : Nat :=
  if env.src_is_row then env.L else env.part_sz

/-- Tail of `gpujoin_load_source`: the end-of-relation test. -/
def load_source_tail (env : Env) (s : State) : Int × State :=
  if s.src_read_pos ≥ env.src_nitems then
    if s.write_pos 0 = 0 then (-1, s) else (1, s)
  else (0, s)

/-- The value of `visible` of a lane: the result of `gpuscan_quals_eval` on the
fetched row, false without a row. -/
def load_visible (env : Env) (s : State) (lane : Nat) : Bool :=
  match load_fetch env s lane with
  | some t => (env.gpuscan_quals_eval t).visible
  | none => false

/-- Error code of a lane after `gpuscan_quals_eval`. -/
def load_errcode (env : Env) (s : State) (lane : Nat) : Nat :=
  match load_fetch env s lane with
  | some t => set_error (s.errcode lane) (env.gpuscan_quals_eval t).err
  | none => s.errcode lane

/-- Slot `wr_index` of a lane: the old write cursor plus the number of
lower-indexed visible lanes. -/
def load_wr_index (env : Env) (s : State) (lane : Nat) : Nat :=
  u32 (s.write_pos 0 + pgstromStairlikeBinaryCount (load_visible env s) lane)

/-- The group once the visible lanes have stored their row offset at depth 0
and lane 0 has advanced `write_pos[0]`; `wr_stack` is `PSTACK_DEPTH(0)`. -/
def load_store (env : Env) (s : State) : State :=
  { s with
    errcode := load_errcode env s
    write_pos := upd s.write_pos 0
      (u32 (s.write_pos 0 + syncthreads_count env.L (load_visible env s)))
    pstack := storeLanes env.L (load_visible env s)
      (fun l => PSTACK_DEPTH env 0 + load_wr_index env s l)
      (fun l => [(load_fetch env s l).getD 0]) s.pstack }

/-- Lane 0 moves on after a stored batch: the next `src_read_pos` from the
global counter for the row format, its own `l_state[0]++` for the block
format. -/
def load_advance (env : Env) (s : State) : State :=
  if env.src_is_row then
    { s with
      src_read_pos := s.kg_src_read_pos
      kg_src_read_pos := u32 (s.kg_src_read_pos + outer_unit_sz env) }
  else
    { s with l_state := upd2 s.l_state 0 0 (u32 (s.l_state 0 0 + 1)) }

/-- No lane fetched a row: every lane clears `l_state[0]`, lane 0 takes the next
`src_read_pos` from the global counter. -/
def load_no_fetch (env : Env) (s : State) : State :=
  { s with
    l_state := updAll s.l_state 0 0
    src_read_pos := s.kg_src_read_pos
    kg_src_read_pos := u32 (s.kg_src_read_pos + outer_unit_sz env) }

/-- The function `gpujoin_load_source`. -/
def gpujoin_load_source (env : Env) (s : State) : Int × State :=
  if syncthreads_count env.L (fun l => (load_fetch env s l).isSome) > 0 then
    if syncthreads_count env.L (fun l => decide (load_errcode env s l ≠ 0)) > 0 then
      (-1, { s with errcode := load_errcode env s })
    else if u32 ((load_store env s).write_pos 0 + env.L) > env.pstack_nrooms then
      (1, load_store env s)
    else load_source_tail env (load_advance env (load_store env s))
  else load_source_tail env (load_no_fetch env s)

/-! ## gpujoin_projection_row -/

/-- Index `read_pos[nrels] + get_local_id()` a lane reads in the projection. -/
def proj_read_index (env : Env) (s : State) (lane : Nat) : Nat :=
  u32 (s.read_pos env.num_rels + lane)

/-- The combination `rd_stack + read_index * (nrels + 1)` of a lane. -/
def proj_comb (env : Env) (s : State) (lane : Nat) : List Nat :=
  readWords s.pstack
    (PSTACK_DEPTH env env.num_rels + u32 (proj_read_index env s lane * (env.num_rels + 1)))
    (env.num_rels + 1)

/-- Whether the lane has a combination: `read_index < write_pos[nrels]`. -/
def proj_valid (env : Env) (s : State) (lane : Nat) : Bool :=
  decide (proj_read_index env s lane < s.write_pos env.num_rels)

/-- The value `nvalids` of `gpujoin_projection_row`. -/
def proj_nvalids (env : Env) (s : State) : Nat :=
  min (u32sub (s.write_pos env.num_rels) (s.read_pos env.num_rels)) env.L

/-- The value `required` of a lane (step 1). -/
def proj_required (env : Env) (s : State) (lane : Nat) : Nat :=
  if proj_valid env s lane then
    u32 (env.maxalign (env.tupitem_htup_offset + (env.gpujoin_projection (proj_comb env s lane)).size))
  else 0

/-- Error code of a lane after step 1. -/
def proj_err1 (env : Env) (s : State) (lane : Nat) : Nat :=
  if proj_valid env s lane then
    set_error (s.errcode lane) (env.gpujoin_projection (proj_comb env s lane)).err
  else s.errcode lane

/-- The total `count` of the bytes required by the batch (step 2). -/
def proj_count (env : Env) (s : State) : Nat :=
  stairlikeTotal env.L (proj_required env s)

/-- The capacity test of step 2, on the base counters fetched by the two
`atomicAdd`; the sum is computed in `size_t`, the row count in `cl_uint`. -/
def proj_nospace (env : Env) (s : State) : Bool :=
  decide (env.dst_head_length
          + env.stromalign (4 * u32 (s.dst_nitems + proj_nvalids env s))
          + s.dst_usage + proj_count env s > env.dst_length)

/-- Offset `tup_pos` at which a lane writes its tuple (step 3). -/
def proj_tup_pos (env : Env) (s : State) (lane : Nat) : Nat :=
  u32sub env.dst_length
    (u32 (u32 (s.dst_usage + pgstromStairlikeSum (proj_required env s) lane)
          + proj_required env s lane))

/-- The lanes of the group that have a combination, in lane order. -/
def proj_lanes (env : Env) (s : State) : List Nat :=
  (List.range env.L).filter (proj_valid env s)

/-- The group after step 1 of `gpujoin_projection_row`: lane 0 has advanced
`read_pos[nrels]` by one batch width, the lanes with a combination have called
`gpujoin_projection` on it. -/
def proj_step1 (env : Env) (s : State) : State :=
  { s with
    read_pos := upd s.read_pos env.num_rels (u32 (s.read_pos env.num_rels + env.L))
    errcode := proj_err1 env s
    proj_calls := s.proj_calls ++ (proj_lanes env s).map (proj_comb env s) }

/-- The group after step 2: the two `atomicAdd` on `kds_dst->nitems` and
`kds_dst->usage`, then the capacity test that raises
`StromError_DataStoreNoSpace` in every lane. -/
def proj_step2 (env : Env) (s : State) : State :=
  { proj_step1 env s with
    dst_base_nitems := s.dst_nitems
    dst_base_usage := s.dst_usage
    dst_nitems := u32 (s.dst_nitems + proj_nvalids env s)
    dst_usage := u32 (s.dst_usage + proj_count env s)
    errcode := fun l =>
      if proj_nospace env s then set_error (proj_err1 env s l) StromError_DataStoreNoSpace
      else proj_err1 env s l }

/-- Whether a lane writes a tuple in step 3: `required > 0`. -/
def proj_writes (env : Env) (s : State) (lane : Nat) : Bool :=
  decide (proj_required env s lane > 0)

/-- The complement `~x` of a `size_t`. -/
def size_t_not (x : Nat) : Nat := 18446744073709551615 - x % 18446744073709551616

/-- The assertion of step 3 for a lane,
`assert((tup_pos & ~(sizeof(Datum) - 1)) == 0)`; the mask is a `size_t`. -/
def proj_tup_pos_assert (env : Env) (s : State) (lane : Nat) : Bool :=
  decide (proj_tup_pos env s lane &&& size_t_not (env.sizeof_Datum - 1) = 0)

/-- Whether step 3 stops the kernel: assertions are enabled and the assertion
on `tup_pos` fails in a lane with `required > 0`. -/
def proj_stops (env : Env) (s : State) : Bool :=
  env.assert_enabled
    && (List.range env.L).any (fun l => proj_writes env s l && !proj_tup_pos_assert env s l)

/-- The group after step 3. When the assertion on `tup_pos` stops the kernel
nothing of step 3 is stored. Otherwise each lane with `required > 0` stores
its row-index entry at `dst_base_nitems + get_local_id()` and forms its tuple
at `tup_pos`. -/
def proj_step3 (env : Env) (s : State) : State :=
  if proj_stops env s then { proj_step2 env s with stopped := true }
  else
  { proj_step2 env s with
    dst_rowindex := (List.range env.L).foldl
      (fun m l => if proj_writes env s l then upd m (u32 (s.dst_nitems + l)) (proj_tup_pos env s l)
        else m)
      s.dst_rowindex
    dst_tuple := (List.range env.L).foldl
      (fun m l => if proj_writes env s l then upd m (proj_tup_pos env s l) (some (proj_comb env s l))
        else m)
      s.dst_tuple
    errcode := fun l =>
      if proj_writes env s l then
        set_error ((proj_step2 env s).errcode l) (env.form_kern_heaptuple (proj_comb env s l))
      else (proj_step2 env s).errcode l }

/-- The barrier vote `__syncthreads_count(kcxt->e.errcode) > 0`. -/
def any_error (env : Env) (s : State) : Bool :=
  decide (syncthreads_count env.L (fun l => decide (s.errcode l ≠ 0)) > 0)

/-- The function `gpujoin_projection_row`; `rd_stack` is
`PSTACK_DEPTH(kgjoin->num_rels)`. When step 3 stops the kernel the state is
final (`stopped`) and the value paired with it is not a return value. -/
def gpujoin_projection_row (env : Env) (s : State) : Int × State :=
  if s.read_pos env.num_rels ≥ s.write_pos env.num_rels then
    gpujoin_rewind_stack env.num_rels s
  else if any_error env (proj_step1 env s) then (-1, proj_step1 env s)
  else if any_error env (proj_step2 env s) then (-1, proj_step2 env s)
  else if any_error env (proj_step3 env s) then (-1, proj_step3 env s)
  else ((env.num_rels : Int), proj_step3 env s)

/-! ## gpujoin_exec_nestloop -/

/-- Common tail of both executors (from the label `left_outer` in the nested
loop): the lanes with `result` append, in lane order from the old write
cursor, the `depth` words found at `rd_addr` followed by the inner locator;
the return value is `depth` while one more batch fits, else `depth + 1`. -/
def exec_append (env : Env) (depth : Nat) (s : State) (result : Nat → Bool)
    (rd_addr : Nat → Nat) (loc : Nat → Nat) : Int × State :=
  let wr_index := fun l => u32 (s.write_pos depth + pgstromStairlikeBinaryCount result l)
  let count := syncthreads_count env.L result
  let s1 : State :=
    { s with
      write_pos := upd s.write_pos depth (u32 (s.write_pos depth + count))
      pstack := storeLanes env.L result
        (fun l => PSTACK_DEPTH env depth + u32 (wr_index l * (depth + 1)))
        (fun l => readWords s.pstack (rd_addr l) depth ++ [loc l]) s.pstack }
  if u32 (s1.write_pos depth + env.L) ≤ env.pstack_nrooms then ((depth : Int), s1)
  else ((depth : Int) + 1, s1)

/-- The branch both executors take when depth `depth - 1` has nothing left to
read: rewind while this depth has room for one more batch, else dive. -/
def exec_drained (env : Env) (depth : Nat) (s : State) : Int × State :=
  if u32 (s.write_pos depth + env.L) ≤ env.pstack_nrooms then gpujoin_rewind_stack depth s
  else ((depth : Int) + 1, s)

/-- Whether the lane's index `read_pos[depth-1] + get_local_id()` is below
`write_pos[depth-1]`. -/
def in_range (s : State) (depth lane : Nat) : Bool :=
  decide (u32 (s.read_pos (depth - 1) + lane) < s.write_pos (depth - 1))

/-- Address of the outer combination of a lane: `rd_stack + rd_index * depth`
with `rd_stack = PSTACK_DEPTH(depth - 1)`. -/
def outer_addr (env : Env) (s : State) (depth lane : Nat) : Nat :=
  PSTACK_DEPTH env (depth - 1) + u32 (u32 (s.read_pos (depth - 1) + lane) * depth)

/-- The outer combination a lane hands to the callbacks at `depth`. -/
def outer_comb (env : Env) (s : State) (depth lane : Nat) : List Nat :=
  readWords s.pstack (outer_addr env s depth lane) depth

/-- The stores `oj_map[index] = true` of the lanes of a pass; `mark l` is the
entry a lane sets, if any. -/
def ojmap_mark (L : Nat) (oj_map : Option Nat) (mark : Nat → Option Nat)
    (mem : Nat → Bool) : Nat → Bool :=
  match oj_map with
  | none => mem
  | some base =>
    (List.range L).foldl
      (fun m l => match mark l with
        | some i => upd m (base + i) true
        | none => m) mem

/-- Outcome of `gpujoin_join_quals` for a lane of the nested loop scanning
inner row `l_state[depth]`. -/
def nestloop_quals (env : Env) (depth : Nat) (s : State) (lane : Nat) : QualOut :=
  env.gpujoin_join_quals depth (outer_comb env s depth lane)
    ((env.inner depth).tupitem_htup (s.l_state lane depth))

/-- The value of `result` of a lane in a scanning pass of the nested loop. -/
def nestloop_result (env : Env) (depth : Nat) (s : State) (lane : Nat) : Bool :=
  if in_range s depth lane then (nestloop_quals env depth s lane).result else false

/-- The function `gpujoin_exec_nestloop`. The first test reads the private
scan cursor of each lane and its arms contain barriers, so the group must
agree on it; a group that disagrees has no defined behaviour (none). -/
def gpujoin_exec_nestloop (env : Env) (depth : Nat) (s : State) : Option (Int × State) :=
  let kds_in := env.inner depth
  let oj_map := KERN_MULTIRELS_OUTER_JOIN_MAP env depth
  let at_end := fun l => decide (s.l_state l depth ≥ kds_in.nitems)
  if (List.range env.L).all at_end then
    if (env.chunks (depth - 1)).left_outer
        ∧ syncthreads_count env.L (fun l => !s.matched l depth) > 0 then
      let result := fun l => if in_range s depth l then s.matched l depth else false
      let s1 : State := { s with matched := updAll s.matched depth true }
      some (exec_append env depth s1 result (fun _ => PSTACK_DEPTH env (depth - 1)) (fun _ => 0))
    else
      some ((depth : Int),
        { s with
          l_state := updAll s.l_state depth 0
          matched := updAll s.matched depth false
          read_pos := upd s.read_pos (depth - 1) (u32 (s.read_pos (depth - 1) + env.L)) })
  else if (List.range env.L).any at_end then none
  else if s.read_pos (depth - 1) ≥ s.write_pos (depth - 1) then
    some (exec_drained env depth s)
  else
    let q := nestloop_quals env depth s
    let result := nestloop_result env depth s
    let s1 : State :=
      { s with
        l_state := updEach s.l_state depth (fun l => u32 (s.l_state l depth + 1))
        matched := fun l d => if d = depth ∧ result l = true then true else s.matched l d
        errcode := fun l =>
          if in_range s depth l then set_error (s.errcode l) (q l).err else s.errcode l
        ojmap := ojmap_mark env.L oj_map
          (fun l => if result l then some (s.l_state l depth) else none) s.ojmap }
    some (exec_append env depth s1 result (outer_addr env s depth)
      (fun l => kds_in.tupitem_htup (s.l_state l depth)))

/-! ## gpujoin_exec_hashjoin -/

/-- Outcome of `gpujoin_hash_value` for a lane. -/
def hash_out (env : Env) (depth : Nat) (s : State) (lane : Nat) : HashOut :=
  env.gpujoin_hash_value depth (outer_comb env s depth lane)

/-- Whether the lane evaluates `gpujoin_hash_value` in this pass (first touch
of an in-range lane). -/
def hash_first_touch (s : State) (depth lane : Nat) : Bool :=
  decide (s.l_state lane depth = 0) && in_range s depth lane

/-- The value of `hash_value` of a lane once `khitem` has been set up. -/
def hash_value_of (env : Env) (depth : Nat) (s : State) (lane : Nat) : Nat :=
  if s.l_state lane depth = 0 then (hash_out env depth s lane).hash
  else match (env.inner depth).item_at (s.l_state lane depth) with
    | [] => 0
    | it :: _ => it.hash

/-- The chain `khitem` points to before the while loop. -/
def hash_start (env : Env) (depth : Nat) (s : State) (lane : Nat) : List HashItem :=
  let kds_hash := env.inner depth
  if s.l_state lane depth = 0 then
    if in_range s depth lane then
      let h := hash_out env depth s lane
      if h.hash ≥ kds_hash.hash_min ∧ h.hash ≤ kds_hash.hash_max then
        if !h.is_null_keys then kds_hash.hash_first h.hash else []
      else []
    else []
  else if s.l_state lane depth ≠ UINT_MAX then
    (kds_hash.item_at (s.l_state lane depth)).tail
  else []

/-- The chain `khitem` points to after the while loop that skips the entries
with another hash value. -/
def hash_khitem (env : Env) (depth : Nat) (s : State) (lane : Nat) : List HashItem :=
  (hash_start env depth s lane).dropWhile (fun it => decide (it.hash ≠ hash_value_of env depth s lane))

/-- Outcome of `gpujoin_join_quals` for a lane of the hash join, when `khitem`
is not NULL. -/
def hashjoin_quals (env : Env) (depth : Nat) (s : State) (lane : Nat) : Option QualOut :=
  match hash_khitem env depth s lane with
  | [] => none
  | it :: _ => some (env.gpujoin_join_quals depth (outer_comb env s depth lane) it.htup_off)

/-- The value of `matched[depth]` of a lane after the predicate evaluation. -/
def hashjoin_matched (env : Env) (depth : Nat) (s : State) (lane : Nat) : Bool :=
  match hashjoin_quals env depth s lane with
  | some q => if q.joinquals_matched then true else s.matched lane depth
  | none => s.matched lane depth

/-- The value of `result` of a lane in `gpujoin_exec_hashjoin`; the left-outer
flag is read from `chunks[depth]`. -/
def hashjoin_result (env : Env) (depth : Nat) (s : State) (lane : Nat) : Bool :=
  match hashjoin_quals env depth s lane with
  | some q => q.result
  | none =>
    decide (s.l_state lane depth ≠ UINT_MAX) && !(s.matched lane depth)
      && (env.chunks depth).left_outer

/-- The entry `khitem->rowid` of the outer-join map a lane sets in a hash-join
pass: when `khitem` is not NULL and `joinquals_matched` came back true. -/
def hashjoin_mark (env : Env) (depth : Nat) (s : State) (lane : Nat) : Option Nat :=
  match hash_khitem env depth s lane with
  | [] => none
  | it :: _ =>
    if (env.gpujoin_join_quals depth (outer_comb env s depth lane) it.htup_off).joinquals_matched
    then some it.rowid else none

/-- Error code of a lane after the callbacks of a hash-join pass. -/
def hashjoin_errcode (env : Env) (depth : Nat) (s : State) (lane : Nat) : Nat :=
  let e1 := if hash_first_touch s depth lane then
      set_error (s.errcode lane) (hash_out env depth s lane).err
    else s.errcode lane
  match hashjoin_quals env depth s lane with
  | some q => set_error e1 q.err
  | none => e1

/-- The function `gpujoin_exec_hashjoin`. -/
def gpujoin_exec_hashjoin (env : Env) (depth : Nat) (s : State) : Int × State :=
  let oj_map := KERN_MULTIRELS_OUTER_JOIN_MAP env depth
  if syncthreads_or env.L (fun l => decide (s.l_state l depth ≠ UINT_MAX)) = false then
    ((depth : Int),
      { s with
        read_pos := upd s.read_pos (depth - 1) (u32 (s.read_pos (depth - 1) + env.L))
        l_state := updAll s.l_state depth 0
        matched := updAll s.matched depth false })
  else if s.read_pos (depth - 1) ≥ s.write_pos (depth - 1) then
    exec_drained env depth s
  else
    let s1 : State :=
      { s with
        matched := updEach s.matched depth (hashjoin_matched env depth s)
        errcode := hashjoin_errcode env depth s
        ojmap := ojmap_mark env.L oj_map (hashjoin_mark env depth s) s.ojmap }
    exec_append env depth s1 (hashjoin_result env depth s) (outer_addr env s depth)
      (fun l => match hash_khitem env depth s l with
        | [] => 0
        | it :: _ => it.htup_off)

/-! ## gpujoin_main -/

/-- State of a group when the traversal loop is entered: lane 0 has fetched
the global read position and zeroed the cursors; the private arrays and the
error code of every lane are zero. -/
def gpujoin_init (env : Env) (kg_src_read_pos : Nat) (pstack : Nat → Nat)
    (ojmap : Nat → Bool) : State :=
  { src_read_pos := kg_src_read_pos
    kg_src_read_pos := u32 (kg_src_read_pos + outer_unit_sz env)
    read_pos := fun _ => 0
    write_pos := fun _ => 0
    dst_base_nitems := 0
    dst_base_usage := 0
    l_state := fun _ _ => 0
    matched := fun _ _ => false
    errcode := fun _ => 0
    pstack := pstack
    ojmap := ojmap
    dst_nitems := 0
    dst_usage := 0
    dst_rowindex := fun _ => 0
    dst_tuple := fun _ => none
    proj_calls := []
    stopped := false }

/-- The assertion at the head of each iteration of the loop of `gpujoin_main`,
`assert(depth <= kmrels->nrels)`, with `kmrels->nrels` equal to
`kgjoin->num_rels`. -/
def main_loop_assert (env : Env) (depth : Int) : Bool :=
  decide (depth ≤ (env.num_rels : Int))

/-- Whether the kernel is stopped at the head of an iteration: an assertion
has stopped it before, or assertions are enabled and the assertion of the
loop fails. -/
def main_loop_stops (env : Env) (depth : Int) (s : State) : Bool :=
  s.stopped || (env.assert_enabled && !main_loop_assert env depth)

/-- One iteration of the loop of `gpujoin_main` at a non-negative depth: the
dispatch on the depth. -/
def gpujoin_dispatch (env : Env) (depth : Nat) (s : State) : Option (Int × State) :=
  if depth = 0 then some (gpujoin_load_source env s)
  else if depth > env.num_rels then some (gpujoin_projection_row env s)
  else if (env.chunks (depth - 1)).is_nestloop then gpujoin_exec_nestloop env depth s
  else some (gpujoin_exec_hashjoin env depth s)

/-- The loop `while (depth >= 0)` of `gpujoin_main`, at most `fuel`
iterations: the state at exit, or none when the loop has not exited within
the fuel (or a group diverged at a barrier, or an assertion stopped the
kernel). -/
def gpujoin_main_loop (env : Env) : Nat → Int → State → Option State
  | 0, depth, s => if depth < 0 then some s else none
  | fuel + 1, depth, s =>
    if depth < 0 then some s
    else if main_loop_stops env depth s then none
    else match gpujoin_dispatch env depth.toNat s with
      | none => none
      | some (depth', s') => gpujoin_main_loop env fuel depth' s'

/-- The depths and states at the head of each iteration, oldest first (used to
state properties of every dispatch). -/
def gpujoin_main_trace (env : Env) : Nat → Int → State → List (Int × State)
  | 0, depth, s => [(depth, s)]
  | fuel + 1, depth, s =>
    if depth < 0 then [(depth, s)]
    else if main_loop_stops env depth s then [(depth, s)]
    else match gpujoin_dispatch env depth.toNat s with
      | none => [(depth, s)]
      | some (depth', s') => (depth, s) :: gpujoin_main_trace env fuel depth' s'

/-- The pair (depth, state) after at most `n` further iterations of the loop of
`gpujoin_main`; the pair stays as it is once the loop has exited or the
kernel is stopped. -/
def run_dispatch (env : Env) : Nat → Int × State → Int × State
  | 0, p => p
  | n + 1, p =>
    if p.1 < 0 then p
    else if main_loop_stops env p.1 p.2 then p
    else match gpujoin_dispatch env p.1.toNat p.2 with
      | none => p
      | some q => run_dispatch env n q

/-- The states a group reaches from the entry of the traversal loop by handler
calls: the source loader, an executor at a depth 1..N of its kind, the
projection, a rewind. Every call is made in a state that satisfies `guard`. -/
inductive Reach (env : Env) (guard : State → Prop) : State → Prop
  | init (p : Nat) (pstack : Nat → Nat) (ojmap : Nat → Bool) :
      Reach env guard (gpujoin_init env p pstack ojmap)
  | load_source (s : State) :
      Reach env guard s → guard s → Reach env guard (gpujoin_load_source env s).2
  | nestloop (s : State) (d : Nat) (r : Int) (s' : State) :
      Reach env guard s → guard s → 1 ≤ d → d ≤ env.num_rels →
      (env.chunks (d - 1)).is_nestloop = true →
      gpujoin_exec_nestloop env d s = some (r, s') → Reach env guard s'
  | hashjoin (s : State) (d : Nat) :
      Reach env guard s → guard s → 1 ≤ d → d ≤ env.num_rels →
      (env.chunks (d - 1)).is_nestloop = false →
      Reach env guard (gpujoin_exec_hashjoin env d s).2
  | projection (s : State) :
      Reach env guard s → guard s → Reach env guard (gpujoin_projection_row env s).2
  | rewind (s : State) (d : Nat) :
      Reach env guard s → guard s → 0 < d → Reach env guard (gpujoin_rewind_stack d s).2

/-- The cursor invariant: a read cursor is less than one batch width past the
write cursor; a nested-loop depth in mid-scan has unread input; the scan state
of a hash-join depth is zero. -/
structure CursorInv (env : Env) (s : State) : Prop where
  near : ∀ d, d ≤ env.num_rels → s.read_pos d < s.write_pos d + env.L
  scan : ∀ d, 1 ≤ d → d ≤ env.num_rels → (env.chunks (d - 1)).is_nestloop = true →
    ∀ lane, lane < env.L → s.l_state lane d ≠ 0 → s.read_pos (d - 1) < s.write_pos (d - 1)
  hash : ∀ d, 1 ≤ d → d ≤ env.num_rels → (env.chunks (d - 1)).is_nestloop = false →
    ∀ lane, lane < env.L → s.l_state lane d = 0

/-- No write cursor is within one batch width of the end of the `cl_uint`
range. -/
def no_wrap (env : Env) (s : State) : Prop :=
  ∀ d, d ≤ env.num_rels → s.write_pos d + env.L < 4294967296

instance (env : Env) (s : State) : Decidable (no_wrap env s) := by
  unfold no_wrap
  exact inferInstance

/-! ## gpujoin_colocate_outer_join_map -/

/-- The loop of one thread of `gpujoin_colocate_outer_join_map`: the OR of
word `gid` of the slots `0 .. num_devices`. The words are addressed from
`ojmaps = (char *)kmrels + kmrels->kmrels_length`. -/
def colocate_or (nrooms num_devices gid : Nat) (mem : Nat → Nat) : Nat :=
  (List.range (num_devices + 1)).foldl (fun map i => map ||| mem (gid + i * nrooms)) 0

/-- One thread of `gpujoin_colocate_outer_join_map`. -/
def colocate_thread (nrooms cuda_dindex num_devices gid : Nat) (mem : Nat → Nat) : Nat → Nat :=
  if gid < nrooms then
    upd mem (cuda_dindex * nrooms + gid) (colocate_or nrooms num_devices gid mem)
  else mem

/-- The kernel `gpujoin_colocate_outer_join_map` run by the threads
`0 .. nthreads-1` of the grid, one after the other. -/
def gpujoin_colocate_outer_join_map (ojmaps_length cuda_dindex num_devices nthreads : Nat)
    (mem : Nat → Nat) : Nat → Nat :=
  (List.range nthreads).foldl
    (fun m gid => colocate_thread (ojmaps_length / 4) cuda_dindex num_devices gid m) mem

/-! ## Reference join (from the specification) -/

/-- Reference, from the specification: the visible outer rows, each a
combination of one locator. -/
def reference_outer (env : Env) : List (List Nat) :=
  (((List.range env.src_nitems).map env.src_tupitem).filter
    (fun t => (env.gpuscan_quals_eval t).visible)).map (fun t => [t])

/-- Reference, from the specification: depth `d` keeps every (combination,
inner row) pair the join predicate accepts and, for a left-outer relation,
one combination with inner locator 0 for each combination without a match. -/
def reference_depth (env : Env) (d : Nat) (combs : List (List Nat)) : List (List Nat) :=
  combs.flatMap (fun c =>
    let hits := ((List.range (env.inner d).nitems).map (env.inner d).tupitem_htup).filter
      (fun r => (env.gpujoin_join_quals d c r).result)
    if hits.isEmpty && (env.chunks (d - 1)).left_outer then [c ++ [0]]
    else hits.map (fun r => c ++ [r]))

/-- Reference, from the specification: the N-way join of the visible outer
rows with the inner relations 1..N in order. -/
def reference_join (env : Env) : List (List Nat) :=
  (List.range env.num_rels).foldl (fun combs k => reference_depth env (k + 1) combs)
    (reference_outer env)

/-! ## Concrete inputs -/

/-- A descriptor of an inner-join nested-loop relation. -/
def demo_chunk : Chunk :=
  { chunk_offset := 0, ojmap_offset := 0, is_nestloop := true,
    left_outer := false, right_outer := false }

/-- A row-store of one row at locator 200. -/
def demo_rows : InnerKds :=
  { nitems := 1, hash_min := 0, hash_max := 4294967295,
    tupitem_htup := fun i => 200 + 8 * i,
    hash_first := fun _ => [], item_at := fun _ => [] }

/-- A hash table whose only item has hash 5, row id 0 and locator 200. -/
def demo_hash : InnerKds :=
  { nitems := 1, hash_min := 0, hash_max := 4294967295,
    tupitem_htup := fun i => 200 + 8 * i,
    hash_first := fun h =>
      if h = 5 then [{ hash := 5, rowid := 0, t_off := 192, htup_off := 200 }] else [],
    item_at := fun _ => [] }

/-- A group of two lanes with 100 rooms per depth, one outer row (locator 100)
in row format, one nested-loop inner relation of one row (locator 200), every
predicate true, no error, a destination of 4096 bytes; built with `assert`
expanding to nothing, `Datum` of eight bytes. -/
def demo_env : Env :=
  { L := 2, pstack_nrooms := 100, num_rels := 1
    kmrels_length := 1000, ojmaps_length := 16, cuda_dindex := 0
    chunks := fun _ => demo_chunk
    inner := fun _ => demo_rows
    src_is_row := true, src_nitems := 1, src_tupitem := fun i => 100 + 8 * i
    part_sz := 1, page_nlines := fun _ => 0, page_item := fun _ _ => none
    dst_length := 4096, dst_head_length := 64
    stromalign := fun n => (n + 15) / 16 * 16
    maxalign := fun n => (n + 7) / 8 * 8
    tupitem_htup_offset := 8
    gpuscan_quals_eval := fun _ => { visible := true, err := 0 }
    gpujoin_join_quals := fun _ _ _ => { result := true, joinquals_matched := true, err := 0 }
    gpujoin_hash_value := fun _ _ => { hash := 0, is_null_keys := false, err := 0 }
    gpujoin_projection := fun _ => { size := 24, err := 0 }
    form_kern_heaptuple := fun _ => 0
    assert_enabled := false, sizeof_Datum := 8 }

/-- The state in which the group enters the traversal loop: global read
position 0, zeroed pseudo-stack and outer-join maps. -/
def demo_init (env : Env) : State := gpujoin_init env 0 (fun _ => 0) (fun _ => false)

/-- What the example theorems observe at the head of an iteration: the depth,
the cursors of depths 0 and 1, and the first two entries of depth 1. -/
def view (env : Env) (p : Int × State) : Int × List Nat × List Nat :=
  (p.1, [p.2.read_pos 0, p.2.write_pos 0, p.2.read_pos 1, p.2.write_pos 1],
    readWords p.2.pstack (PSTACK_DEPTH env 1) 4)

/-- Two outer rows (locators 100 and 108) joined with a left-outer nested-loop
relation of one row that only the first outer row matches. -/
def left_outer_env : Env :=
  { demo_env with
    src_nitems := 2
    chunks := fun _ => { demo_chunk with left_outer := true }
    gpujoin_join_quals := fun _ c _ =>
      { result := decide (c = [100]), joinquals_matched := decide (c = [100]), err := 0 } }

/-- Two hash-joined relations with the given left-outer flags; the only outer
row hashes to 9, which no item of relation 1 carries. -/
def hash_pair_env (left_outer1 left_outer2 : Bool) : Env :=
  { demo_env with
    num_rels := 2
    chunks := fun i =>
      if i = 0 then { demo_chunk with is_nestloop := false, left_outer := left_outer1 }
      else { demo_chunk with is_nestloop := false, left_outer := left_outer2 }
    inner := fun _ => demo_hash
    gpujoin_hash_value := fun _ _ => { hash := 9, is_null_keys := false, err := 0 } }

/-- One lane, a nested-loop relation of two rows; the predicate accepts both
and raises error 7 on the first. -/
def failing_quals_env : Env :=
  { demo_env with
    L := 1
    inner := fun _ => { demo_rows with nitems := 2 }
    gpujoin_join_quals := fun _ _ r =>
      { result := true, joinquals_matched := true, err := if r = 200 then 7 else 0 } }

/-- One lane, a hash-joined relation whose item the outer row probes; the
predicate accepts it and raises error 7. -/
def failing_hash_env : Env :=
  { demo_env with
    L := 1
    chunks := fun _ => { demo_chunk with is_nestloop := false }
    inner := fun _ => demo_hash
    gpujoin_hash_value := fun _ _ => { hash := 5, is_null_keys := false, err := 0 }
    gpujoin_join_quals := fun _ _ _ => { result := true, joinquals_matched := true, err := 7 } }

/-- Two lanes and four rooms per depth, one outer row that matches the three
rows of the nested-loop relation; the destination (head 64, row index aligned
to 16, 32 bytes per tuple) holds exactly two tuples. -/
def tight_dst_env : Env :=
  { demo_env with
    pstack_nrooms := 4
    inner := fun _ => { demo_rows with nitems := 3 }
    dst_length := 144 }

/-- The input of `demo_env` with an empty nested-loop relation. -/
def empty_inner_env : Env :=
  { demo_env with inner := fun _ => { demo_rows with nitems := 0 } }

/-- The state of the group of a concrete input at the head of iteration `n` of
the traversal loop (counted from 0). -/
def demo_state (env : Env) (n : Nat) : State :=
  (run_dispatch env n (0, demo_init env)).2

/-- Outer-join maps of two slots of four words: word 0 is 1 in slot 0 and 6 in
slot 1, every other word is 0. -/
def demo_ojmaps : Nat → Nat :=
  fun a => if a = 0 then 1 else if a = 4 then 6 else 0

/-- The input of `demo_env` with the nested-loop relation right-outer. -/
def right_outer_env : Env :=
  { demo_env with chunks := fun _ => { demo_chunk with right_outer := true } }

/-- One right-outer hash-joined relation whose item the outer row probes and
matches. -/
def right_outer_hash_env : Env :=
  { demo_env with
    chunks := fun _ => { demo_chunk with is_nestloop := false, right_outer := true }
    inner := fun _ => demo_hash
    gpujoin_hash_value := fun _ _ => { hash := 5, is_null_keys := false, err := 0 } }

/-- The inner locator a lane of the hash join stores behind the outer
combination: the offset of `khitem->t.htup`, 0 when `khitem` is NULL. -/
def hashjoin_loc (env : Env) (depth : Nat) (s : State) (lane : Nat) : Nat :=
  match hash_khitem env depth s lane with
  | [] => 0
  | it :: _ => it.htup_off

/-- Depth `j` is rewound in `s`: both cursors are zero, the scan state of every
lane is zero and its matched flag is clear. -/
def depth_reset (s : State) (j : Nat) : Prop :=
  s.read_pos j = 0 ∧ s.write_pos j = 0
    ∧ ∀ lane, s.l_state lane j = 0 ∧ s.matched lane j = false

/-- The offset `t_offset` of the row a lane fetched (0 without a row). -/
def load_t_offset (env : Env) (s : State) (lane : Nat) : Nat :=
  (load_fetch env s lane).getD 0

/-- The state after `n` successive `gpujoin_exec_hashjoin` calls at `depth`. -/
def hashjoin_passes (env : Env) (depth : Nat) : Nat → State → State
  | 0, s => s
  | n + 1, s => hashjoin_passes env depth n (gpujoin_exec_hashjoin env depth s).2

/-- A relation of two rows (locators 200 and 208), given both as a row-store
and as a hash table whose two items carry hash 5 in one chain. -/
def two_rows : InnerKds :=
  { nitems := 2, hash_min := 0, hash_max := 4294967295,
    tupitem_htup := fun i => 200 + 8 * i,
    hash_first := fun h =>
      if h = 5 then [{ hash := 5, rowid := 0, t_off := 192, htup_off := 200 },
                     { hash := 5, rowid := 1, t_off := 200, htup_off := 208 }]
      else [],
    item_at := fun _ => [] }

/-- One outer row whose key hashes to 5 and equals the key of both rows of
`two_rows`; the relation is joined by nested loop or by hash. -/
def equiv_env (nestloop : Bool) : Env :=
  { demo_env with
    chunks := fun _ => { demo_chunk with is_nestloop := nestloop }
    inner := fun _ => two_rows
    gpujoin_hash_value := fun _ _ => { hash := 5, is_null_keys := false, err := 0 } }

/-- Two lanes, three rooms per depth, two outer rows (locators 100 and 108)
that both match the one inner row. -/
def dive_env : Env :=
  { demo_env with pstack_nrooms := 3, src_nitems := 2 }

/-- Two lanes, four rooms per depth, one outer row that matches the five rows
of the nested-loop relation. -/
def overflow_env : Env :=
  { demo_env with pstack_nrooms := 4, inner := fun _ => { demo_rows with nitems := 5 } }

/-- Two lanes, three rooms per depth, two outer rows and two inner rows; row
100 matches both inner rows, row 108 the first one only. -/
def skip_env : Env :=
  { demo_env with
    pstack_nrooms := 3, src_nitems := 2
    inner := fun _ => { demo_rows with nitems := 2 }
    gpujoin_join_quals := fun _ c r =>
      { result := decide (c = [100] ∨ r = 200),
        joinquals_matched := decide (c = [100] ∨ r = 200), err := 0 } }

/-- Four outer rows (locators 100, 108, 116, 124) joined with a left-outer
nested-loop relation of one row that only row 116 matches. -/
def left_outer4_env : Env :=
  { demo_env with
    src_nitems := 4
    chunks := fun _ => { demo_chunk with left_outer := true }
    gpujoin_join_quals := fun _ c _ =>
      { result := decide (c = [116]), joinquals_matched := decide (c = [116]), err := 0 } }

/-- One hash-joined left-outer relation (the flag is set in every descriptor);
the key of the only outer row is null. -/
def null_key_env : Env :=
  { demo_env with
    chunks := fun _ =>
      { demo_chunk with is_nestloop := false, left_outer := true, right_outer := true }
    inner := fun _ => demo_hash
    gpujoin_hash_value := fun _ _ => { hash := 5, is_null_keys := true, err := 0 } }

/-! ## Pseudo-stack layout -/

/-- Word offset of the `pstack_base` of a group from
`(cl_uint *)((char *)kds_src + kgjoin->pstack_offset)`. `GPUJOIN_MAX_DEPTH`
and the value of `get_global_index()` are declared outside src and taken as
parameters; the product is a `cl_uint`. -/
def pstack_base (GPUJOIN_MAX_DEPTH pstack_nrooms global_index : Nat) : Nat :=
  u32 (u32 (global_index * pstack_nrooms)
        * ((GPUJOIN_MAX_DEPTH + 1) * (GPUJOIN_MAX_DEPTH + 2))) / 2

/-- Word address, from `pstack_base`, of entry `index` of depth `d`:
`wr_stack + wr_index * (depth + 1)` of the executors, with
`wr_stack = PSTACK_DEPTH(depth)`. -/
def pstack_entry (env : Env) (d index : Nat) : Nat :=
  PSTACK_DEPTH env d + u32 (index * (d + 1))

/-- Word `a` (from `pstack_base`) lies in the region of depth `d`: the
`pstack_nrooms` entries of `d + 1` words from `PSTACK_DEPTH(d)`. -/
def in_pstack_region (env : Env) (d a : Nat) : Prop :=
  PSTACK_DEPTH env d ≤ a ∧ a < PSTACK_DEPTH env d + env.pstack_nrooms * (d + 1)

instance (env : Env) (d a : Nat) : Decidable (in_pstack_region env d a) := by
  unfold in_pstack_region
  exact inferInstance

end GpuJoin


/-! # Theorems -/

namespace GpuJoin

/-! ## Barrier votes -/

theorem syncthreads_count_eq_zero (L : Nat) (p : Nat → Bool) :
    syncthreads_count L p = 0 ↔ ∀ l, l < L → p l = false := by
  unfold syncthreads_count
  rw [List.countP_eq_zero]
  constructor
  · intro h l hl
    have := h l (List.mem_range.mpr hl)
    simpa using this
  · intro h l hl
    have := h l (List.mem_range.mp hl)
    simp [this]

theorem syncthreads_count_pos (L : Nat) (p : Nat → Bool) :
    0 < syncthreads_count L p ↔ ∃ l, l < L ∧ p l = true := by
  unfold syncthreads_count
  rw [List.countP_pos_iff]
  constructor
  · rintro ⟨l, hl, hp⟩
    exact ⟨l, List.mem_range.mp hl, hp⟩
  · rintro ⟨l, hl, hp⟩
    exact ⟨l, List.mem_range.mpr hl, hp⟩

theorem any_error_eq_false (env : Env) (s : State) :
    any_error env s = false ↔ ∀ l, l < env.L → s.errcode l = 0 := by
  unfold any_error
  rw [decide_eq_false_iff_not, gt_iff_lt, Nat.pos_iff_ne_zero, not_not, syncthreads_count_eq_zero]
  constructor
  · intro h l hl
    simpa using h l hl
  · intro h l hl
    simp [h l hl]

theorem any_error_eq_true (env : Env) (s : State) :
    any_error env s = true ↔ ∃ l, l < env.L ∧ s.errcode l ≠ 0 := by
  unfold any_error
  rw [decide_eq_true_iff, gt_iff_lt, syncthreads_count_pos]
  constructor
  · rintro ⟨l, hl, h⟩
    exact ⟨l, hl, by simpa using h⟩
  · rintro ⟨l, hl, h⟩
    exact ⟨l, hl, by simpa using h⟩

/-! ## Projection -/

/-- The projection of a batch that raised no error in step 1 and does not fit:
every lane gets the out-of-space error and the call stops after step 2. -/
theorem projection_row_nospace (env : Env) (s : State) (hL : 0 < env.L)
    (hbatch : s.read_pos env.num_rels < s.write_pos env.num_rels)
    (herr : ∀ l, l < env.L → proj_err1 env s l = 0)
    (hns : proj_nospace env s = true) :
    gpujoin_projection_row env s = (-1, proj_step2 env s)
    ∧ (∀ l, l < env.L → (proj_step2 env s).errcode l = StromError_DataStoreNoSpace) := by
  have h1 : any_error env (proj_step1 env s) = false := by
    rw [any_error_eq_false]; exact herr
  have h2 : any_error env (proj_step2 env s) = true := by
    rw [any_error_eq_true]
    exact ⟨0, hL, by simp [proj_step2, hns, herr 0 hL, set_error, StromError_DataStoreNoSpace]⟩
  refine ⟨?_, ?_⟩
  · unfold gpujoin_projection_row
    rw [if_neg (not_le.mpr hbatch)]
    simp [h1, h2]
  · intro l hl
    simp [proj_step2, hns, herr l hl, set_error]

/-- Step 3 leaves the cursors, the scan state and the destination counters
as step 2 left them, whether or not the assertion stops the kernel. -/
theorem proj_step3_frame (env : Env) (s : State) :
    (proj_step3 env s).read_pos
        = upd s.read_pos env.num_rels (u32 (s.read_pos env.num_rels + env.L))
    ∧ (proj_step3 env s).write_pos = s.write_pos
    ∧ (proj_step3 env s).l_state = s.l_state
    ∧ (proj_step3 env s).dst_nitems = u32 (s.dst_nitems + proj_nvalids env s)
    ∧ (proj_step3 env s).dst_usage = u32 (s.dst_usage + proj_count env s) := by
  unfold proj_step3
  split <;> exact ⟨rfl, rfl, rfl, rfl, rfl⟩

/-- The projection of a batch that raised no error in step 1 and fits: step 3
is run. -/
theorem projection_row_fits (env : Env) (s : State)
    (hbatch : s.read_pos env.num_rels < s.write_pos env.num_rels)
    (herr : ∀ l, l < env.L → proj_err1 env s l = 0)
    (hns : proj_nospace env s = false) :
    (gpujoin_projection_row env s).2 = proj_step3 env s
    ∧ ((∀ l, l < env.L → env.form_kern_heaptuple (proj_comb env s l) = 0) →
        (gpujoin_projection_row env s).1 = (env.num_rels : Int)) := by
  have h1 : any_error env (proj_step1 env s) = false := by
    rw [any_error_eq_false]; exact herr
  have h2 : any_error env (proj_step2 env s) = false := by
    rw [any_error_eq_false]
    intro l hl
    simp [proj_step2, hns, herr l hl]
  unfold gpujoin_projection_row
  rw [if_neg (not_le.mpr hbatch)]
  simp only [h1, h2, Bool.false_eq_true, if_false]
  refine ⟨?_, ?_⟩
  · split <;> rfl
  · intro hform
    have h3 : any_error env (proj_step3 env s) = false := by
      rw [any_error_eq_false]
      intro l hl
      unfold proj_step3
      split <;> simp [proj_step2, hns, herr l hl, hform l hl, set_error]
    simp [h3]

theorem colocate_or_congr (nrooms D g : Nat) (m mem : Nat → Nat)
    (h : ∀ i, i ≤ D → m (g + i * nrooms) = mem (g + i * nrooms)) :
    colocate_or nrooms D g m = colocate_or nrooms D g mem := by
  unfold colocate_or
  apply List.foldl_ext
  intro a i hi
  rw [h i (by have := List.mem_range.mp hi; omega)]

theorem colocate_or_testBit (nrooms D g : Nat) (mem : Nat → Nat) (b : Nat) :
    (colocate_or nrooms D g mem).testBit b = true
      ↔ ∃ i, i ≤ D ∧ (mem (g + i * nrooms)).testBit b = true := by
  unfold colocate_or
  induction D with
  | zero => simp [List.range_succ]
  | succ D ih =>
    rw [List.range_succ, List.foldl_append]
    simp only [List.foldl_cons, List.foldl_nil, Nat.testBit_lor, Bool.or_eq_true, ih]
    constructor
    · rintro (⟨i, hi, h⟩ | h)
      · exact ⟨i, by omega, h⟩
      · exact ⟨D + 1, le_refl _, h⟩
    · rintro ⟨i, hi, h⟩
      by_cases hD : i ≤ D
      · exact Or.inl ⟨i, hD, h⟩
      · have : i = D + 1 := by omega
        subst this
        exact Or.inr h

theorem slot_word_unique (nrooms a b i j : Nat) (ha : a < nrooms) (hb : b < nrooms)
    (h : a + i * nrooms = j * nrooms + b) : a = b := by
  have h1 : (a + i * nrooms) % nrooms = a := by
    rw [Nat.add_mul_mod_self_right]; exact Nat.mod_eq_of_lt ha
  have h2 : (j * nrooms + b) % nrooms = b := by
    rw [Nat.add_comm, Nat.add_mul_mod_self_right]; exact Nat.mod_eq_of_lt hb
  rw [h] at h1
  omega

theorem colocate_untouched (len dindex D n : Nat) (mem : Nat → Nat) (a : Nat)
    (h : ∀ gid, gid < n → gid < len / 4 → a ≠ dindex * (len / 4) + gid) :
    gpujoin_colocate_outer_join_map len dindex D n mem a = mem a := by
  unfold gpujoin_colocate_outer_join_map
  induction n with
  | zero => simp
  | succ n ih =>
    rw [List.range_succ, List.foldl_append]
    simp only [List.foldl_cons, List.foldl_nil]
    have ih' := ih (fun gid hg hr => h gid (by omega) hr)
    unfold colocate_thread
    split
    · rename_i hn
      have := h n (by omega) hn
      simp only [upd, this, if_false]
      exact ih'
    · exact ih'

theorem colocate_merged (len dindex D n : Nat) (mem : Nat → Nat) (g : Nat)
    (hg : g < len / 4) (hn : g < n) :
    gpujoin_colocate_outer_join_map len dindex D n mem (dindex * (len / 4) + g)
      = colocate_or (len / 4) D g mem := by
  induction n with
  | zero => omega
  | succ n ih =>
    have hfold : gpujoin_colocate_outer_join_map len dindex D (n + 1) mem
        = colocate_thread (len / 4) dindex D n
            (gpujoin_colocate_outer_join_map len dindex D n mem) := by
      unfold gpujoin_colocate_outer_join_map
      rw [List.range_succ, List.foldl_append]
      rfl
    rw [hfold]
    by_cases hgn : g = n
    · subst hgn
      unfold colocate_thread
      rw [if_pos hg]
      simp only [upd, if_true]
      apply colocate_or_congr
      intro i _
      apply colocate_untouched
      intro gid hgid hr heq
      have := slot_word_unique (len / 4) g gid i dindex hg hr heq
      omega
    · have hlt : g < n := by omega
      unfold colocate_thread
      split
      · have hne : dindex * (len / 4) + g ≠ dindex * (len / 4) + n := by omega
        simp only [upd, hne, if_false]
        exact ih hlt
      · exact ih hlt

/-! ## Outer-join map marking -/

theorem upd_true_mono (m : Nat → Bool) (i a : Nat) (h : m a = true) : upd m i true a = true := by
  unfold upd; split <;> simp [h]

theorem ojmap_mark_none (L : Nat) (mark : Nat → Option Nat) (mem : Nat → Bool) :
    ojmap_mark L none mark mem = mem := rfl

theorem ojmap_fold_mono (base : Nat) (mark : Nat → Option Nat) (ls : List Nat)
    (mem : Nat → Bool) (a : Nat) (h : mem a = true) :
    ls.foldl (fun m l => match mark l with
        | some i => upd m (base + i) true
        | none => m) mem a = true := by
  induction ls generalizing mem with
  | nil => exact h
  | cons l ls ih =>
    simp only [List.foldl_cons]
    apply ih
    cases mark l with
    | none => exact h
    | some i => exact upd_true_mono mem _ a h

theorem ojmap_fold_set (base : Nat) (mark : Nat → Option Nat) (ls : List Nat)
    (mem : Nat → Bool) (lane i : Nat) (hl : lane ∈ ls) (hm : mark lane = some i) :
    ls.foldl (fun m l => match mark l with
        | some i => upd m (base + i) true
        | none => m) mem (base + i) = true := by
  induction ls generalizing mem with
  | nil => cases hl
  | cons l ls ih =>
    simp only [List.foldl_cons]
    rcases List.mem_cons.mp hl with h | h
    · subst h
      apply ojmap_fold_mono
      simp [hm, upd]
    · exact ih _ h

theorem ojmap_mark_mono (L : Nat) (oj : Option Nat) (mark : Nat → Option Nat)
    (mem : Nat → Bool) (a : Nat) (h : mem a = true) : ojmap_mark L oj mark mem a = true := by
  cases oj with
  | none => exact h
  | some base => exact ojmap_fold_mono base mark _ mem a h

theorem ojmap_mark_set (L base : Nat) (mark : Nat → Option Nat) (mem : Nat → Bool)
    (lane i : Nat) (hl : lane < L) (hm : mark lane = some i) :
    ojmap_mark L (some base) mark mem (base + i) = true :=
  ojmap_fold_set base mark _ mem lane i (List.mem_range.mpr hl) hm

theorem exec_append_ojmap (env : Env) (d : Nat) (s : State) (result : Nat → Bool)
    (rd : Nat → Nat) (loc : Nat → Nat) :
    (exec_append env d s result rd loc).2.ojmap = s.ojmap := by
  unfold exec_append
  simp only
  split <;> rfl

theorem rewind_ojmap (d : Nat) (s : State) : (gpujoin_rewind_stack d s).2.ojmap = s.ojmap := by
  induction d generalizing s with
  | zero => rfl
  | succ d ih =>
    unfold gpujoin_rewind_stack
    split
    · rfl
    · rw [ih]; rfl

theorem exec_drained_ojmap (env : Env) (d : Nat) (s : State) :
    (exec_drained env d s).2.ojmap = s.ojmap := by
  unfold exec_drained
  split
  · exact rewind_ojmap d s
  · rfl

/-- The outer-join map after a nested-loop call, by the branch taken. -/
theorem nestloop_ojmap (env : Env) (d : Nat) (s : State) (r : Int) (s' : State)
    (h : gpujoin_exec_nestloop env d s = some (r, s')) :
    s'.ojmap = s.ojmap
    ∨ ((List.range env.L).any (fun l => decide (s.l_state l d ≥ (env.inner d).nitems)) = false
        ∧ s.read_pos (d - 1) < s.write_pos (d - 1)
        ∧ s'.ojmap = ojmap_mark env.L (KERN_MULTIRELS_OUTER_JOIN_MAP env d)
            (fun l => if nestloop_result env d s l then some (s.l_state l d) else none)
            s.ojmap) := by
  unfold gpujoin_exec_nestloop at h
  simp only at h
  split at h
  · split at h
    · injection h with h
      left
      have h2 := congrArg (fun p => p.2.ojmap) h
      simp only [exec_append_ojmap] at h2
      exact h2.symm
    · injection h with h
      left
      have h2 := congrArg (fun p => p.2.ojmap) h
      exact h2.symm
  · split at h
    · cases h
    · split at h
      · injection h with h
        left
        have h2 := congrArg (fun p => p.2.ojmap) h
        simp only [exec_drained_ojmap] at h2
        exact h2.symm
      · injection h with h
        right
        rename_i h1 h2 h3
        refine ⟨by simpa using h2, by omega, ?_⟩
        have h4 := congrArg (fun p => p.2.ojmap) h
        simp only [exec_append_ojmap] at h4
        exact h4.symm

/-- The outer-join map after a hash-join call, by the branch taken. -/
theorem hashjoin_ojmap (env : Env) (d : Nat) (s : State) :
    (gpujoin_exec_hashjoin env d s).2.ojmap = s.ojmap
    ∨ (syncthreads_or env.L (fun l => decide (s.l_state l d ≠ UINT_MAX)) = true
        ∧ s.read_pos (d - 1) < s.write_pos (d - 1)
        ∧ (gpujoin_exec_hashjoin env d s).2.ojmap
            = ojmap_mark env.L (KERN_MULTIRELS_OUTER_JOIN_MAP env d)
                (hashjoin_mark env d s) s.ojmap) := by
  unfold gpujoin_exec_hashjoin
  simp only
  split
  · left; rfl
  · split
    · left; exact exec_drained_ojmap env d s
    · right
      rename_i h1 h2
      refine ⟨by simpa using h1, by omega, ?_⟩
      rw [exec_append_ojmap]

/-- The outer-join map after a scanning pass of the nested loop. -/
theorem nestloop_scan_ojmap (env : Env) (d : Nat) (s : State) (r : Int) (s' : State)
    (h : gpujoin_exec_nestloop env d s = some (r, s'))
    (lane : Nat) (hl : lane < env.L) (hscan : s.l_state lane d < (env.inner d).nitems)
    (hread : s.read_pos (d - 1) < s.write_pos (d - 1)) :
    s'.ojmap = ojmap_mark env.L (KERN_MULTIRELS_OUTER_JOIN_MAP env d)
      (fun l => if nestloop_result env d s l then some (s.l_state l d) else none) s.ojmap := by
  unfold gpujoin_exec_nestloop at h
  simp only at h
  have hall : ¬ (List.range env.L).all
      (fun l => decide (s.l_state l d ≥ (env.inner d).nitems)) = true := by
    intro hc
    have := List.all_eq_true.mp hc lane (List.mem_range.mpr hl)
    simp only [decide_eq_true_eq] at this
    omega
  rw [if_neg hall] at h
  split at h
  · cases h
  · rw [if_neg (by omega)] at h
    injection h with h
    have h4 := congrArg (fun p => p.2.ojmap) h
    simp only [exec_append_ojmap] at h4
    exact h4.symm

/-- The outer-join map after a probing pass of the hash join. -/
theorem hashjoin_probe_ojmap (env : Env) (d : Nat) (s : State)
    (hor : syncthreads_or env.L (fun l => decide (s.l_state l d ≠ UINT_MAX)) = true)
    (hread : s.read_pos (d - 1) < s.write_pos (d - 1)) :
    (gpujoin_exec_hashjoin env d s).2.ojmap
      = ojmap_mark env.L (KERN_MULTIRELS_OUTER_JOIN_MAP env d) (hashjoin_mark env d s)
          s.ojmap := by
  unfold gpujoin_exec_hashjoin
  simp only [hor, Bool.true_eq_false, if_false, if_neg (not_le.mpr hread)]
  rw [exec_append_ojmap]

/-- A group whose lanes agree on the scan cursor of the depth gets a result
from `gpujoin_exec_nestloop`. -/
theorem nestloop_defined (env : Env) (d : Nat) (s : State)
    (huni : ∀ l, l < env.L → s.l_state l d = s.l_state 0 d) :
    (gpujoin_exec_nestloop env d s).isSome = true := by
  unfold gpujoin_exec_nestloop
  simp only
  split
  · split <;> rfl
  · rename_i hall
    have hany : (List.range env.L).any
        (fun l => decide (s.l_state l d ≥ (env.inner d).nitems)) = false := by
      by_contra hc
      have hc' : (List.range env.L).any
          (fun l => decide (s.l_state l d ≥ (env.inner d).nitems)) = true := by simpa using hc
      obtain ⟨l, hl, hge⟩ := List.any_eq_true.mp hc'
      apply hall
      apply List.all_eq_true.mpr
      intro l' hl'
      have h1 := huni l (List.mem_range.mp hl)
      have h2 := huni l' (List.mem_range.mp hl')
      simp only [decide_eq_true_eq] at hge ⊢
      omega
    rw [hany]
    simp only [Bool.false_eq_true, if_false]
    split <;> rfl

/-! ## Cursor invariant -/

theorem syncthreads_count_le (L : Nat) (p : Nat → Bool) : syncthreads_count L p ≤ L := by
  unfold syncthreads_count
  have := List.countP_le_length p (l := List.range L)
  simpa using this

theorem CursorInv_init (env : Env) (hL : 0 < env.L) (p : Nat) (pstack : Nat → Nat)
    (ojmap : Nat → Bool) : CursorInv env (gpujoin_init env p pstack ojmap) := by
  constructor
  · intro d _; simpa [gpujoin_init] using hL
  · intro d _ _ _ lane _ h; simp [gpujoin_init] at h
  · intro d _ _ _ lane _; simp [gpujoin_init]

/-- Frame: a step that keeps the read cursors and the scan states of the
depths 1.. and does not lower a write cursor keeps the invariant. -/
theorem CursorInv_grow (env : Env) (s s' : State) (h : CursorInv env s)
    (hr : s'.read_pos = s.read_pos)
    (hl : ∀ lane d, 1 ≤ d → s'.l_state lane d = s.l_state lane d)
    (hw : ∀ d, s.write_pos d ≤ s'.write_pos d) : CursorInv env s' := by
  constructor
  · intro d hd
    have := h.near d hd
    have := hw d
    rw [hr]; omega
  · intro d h1 h2 h3 lane h4 h5
    rw [hl lane d h1] at h5
    have := h.scan d h1 h2 h3 lane h4 h5
    have := hw (d - 1)
    rw [hr]; omega
  · intro d h1 h2 h3 lane h4
    rw [hl lane d h1]
    exact h.hash d h1 h2 h3 lane h4

theorem rewind_reset_inv (env : Env) (d : Nat) (s : State) (hL : 0 < env.L)
    (h : CursorInv env s) (hd : ¬ s.read_pos d < s.write_pos d) :
    CursorInv env (rewind_reset d s) := by
  constructor
  · intro k hk
    by_cases hkd : k = d
    · subst hkd; simpa [rewind_reset, upd] using hL
    · simpa [rewind_reset, upd, hkd] using h.near k hk
  · intro k h1 h2 h3 lane h4 h5
    by_cases hkd : k = d
    · subst hkd; simp [rewind_reset, updAll] at h5
    · have h5' : s.l_state lane k ≠ 0 := by simpa [rewind_reset, updAll, hkd] using h5
      have := h.scan k h1 h2 h3 lane h4 h5'
      by_cases hk1 : k - 1 = d
      · rw [hk1] at this; exact absurd this hd
      · simpa [rewind_reset, upd, hk1] using this
  · intro k h1 h2 h3 lane h4
    by_cases hkd : k = d
    · subst hkd; simp [rewind_reset, updAll]
    · simpa [rewind_reset, updAll, hkd] using h.hash k h1 h2 h3 lane h4

theorem rewind_inv (env : Env) (d : Nat) (s : State) (hL : 0 < env.L)
    (h : CursorInv env s) : CursorInv env (gpujoin_rewind_stack d s).2 := by
  induction d generalizing s with
  | zero => exact h
  | succ d ih =>
    unfold gpujoin_rewind_stack
    split
    · exact h
    · rename_i hd
      exact ih _ (rewind_reset_inv env d s hL h hd)

theorem u32_le (x : Nat) : u32 x ≤ x := Nat.mod_le _ _

theorem u32_of_lt (x : Nat) (h : x < 4294967296) : u32 x = x := Nat.mod_eq_of_lt h

theorem exec_append_fields (env : Env) (d : Nat) (s : State) (res : Nat → Bool)
    (rd : Nat → Nat) (loc : Nat → Nat) :
    (exec_append env d s res rd loc).2.read_pos = s.read_pos
    ∧ (exec_append env d s res rd loc).2.l_state = s.l_state
    ∧ (exec_append env d s res rd loc).2.write_pos
        = upd s.write_pos d (u32 (s.write_pos d + syncthreads_count env.L res)) := by
  unfold exec_append
  simp only
  split <;> exact ⟨rfl, rfl, rfl⟩

theorem exec_append_inv (env : Env) (d : Nat) (s : State) (res : Nat → Bool)
    (rd : Nat → Nat) (loc : Nat → Nat) (hdN : d ≤ env.num_rels) (h : CursorInv env s)
    (hg : no_wrap env s) :
    CursorInv env (exec_append env d s res rd loc).2 := by
  obtain ⟨h1, h2, h3⟩ := exec_append_fields env d s res rd loc
  apply CursorInv_grow env s _ h h1
  · intro lane k _; rw [h2]
  · intro k
    rw [h3]
    unfold upd
    split
    · rename_i hk
      subst hk
      have := syncthreads_count_le env.L res
      have := hg k hdN
      rw [u32_of_lt _ (by omega)]
      omega
    · exact le_refl _

theorem exec_drained_inv (env : Env) (d : Nat) (s : State) (hL : 0 < env.L)
    (h : CursorInv env s) : CursorInv env (exec_drained env d s).2 := by
  unfold exec_drained
  split
  · exact rewind_inv env d s hL h
  · exact h

theorem load_source_tail_state (env : Env) (s : State) : (load_source_tail env s).2 = s := by
  unfold load_source_tail
  split
  · split <;> rfl
  · rfl

theorem load_store_write_pos (env : Env) (s : State) (hg : no_wrap env s) (k : Nat) :
    s.write_pos k ≤ (load_store env s).write_pos k := by
  simp only [load_store, upd]
  split
  · rename_i hk
    subst hk
    have := syncthreads_count_le env.L (load_visible env s)
    have := hg 0 (Nat.zero_le _)
    rw [u32_of_lt _ (by omega)]
    omega
  · exact le_refl _

theorem load_source_inv (env : Env) (s : State) (h : CursorInv env s) (hg : no_wrap env s) :
    CursorInv env (gpujoin_load_source env s).2 := by
  have hst : CursorInv env (load_store env s) :=
    CursorInv_grow env s _ h rfl (fun _ _ _ => rfl) (load_store_write_pos env s hg)
  unfold gpujoin_load_source
  split
  · split
    · exact CursorInv_grow env s _ h rfl (fun _ _ _ => rfl) (fun _ => le_refl _)
    · split
      · exact hst
      · rw [load_source_tail_state]
        refine CursorInv_grow env (load_store env s) _ hst ?_ ?_ ?_
        · unfold load_advance; split <;> rfl
        · intro lane k hk
          unfold load_advance
          split
          · rfl
          · simp only [upd2]
            rw [if_neg (by omega)]
        · intro k
          unfold load_advance; split <;> exact le_refl _
  · rw [load_source_tail_state]
    refine CursorInv_grow env s _ h rfl ?_ (fun _ => le_refl _)
    intro lane k hk
    simp only [load_no_fetch, updAll]
    rw [if_neg (by omega)]

theorem syncthreads_or_eq_false (L : Nat) (p : Nat → Bool) :
    syncthreads_or L p = false ↔ ∀ l, l < L → p l = false := by
  unfold syncthreads_or
  rw [List.any_eq_false]
  constructor
  · intro h l hl
    simpa using h l (List.mem_range.mpr hl)
  · intro h l hl
    simp [h l (List.mem_range.mp hl)]

/-- A read cursor of a depth with unread input advanced by one batch width. -/
theorem CursorInv_advance (env : Env) (s s' : State) (d : Nat) (h : CursorInv env s)
    (hread : s.read_pos d < s.write_pos d)
    (hr : s'.read_pos = upd s.read_pos d (u32 (s.read_pos d + env.L)))
    (hw : s'.write_pos = s.write_pos)
    (hl : ∀ lane k, k ≤ env.num_rels →
      s'.l_state lane k = if k = d + 1 then 0 else s.l_state lane k) :
    CursorInv env s' := by
  constructor
  · intro k hk
    rw [hr, hw]
    unfold upd
    split
    · rename_i hkd
      subst hkd
      have := u32_le (s.read_pos k + env.L)
      omega
    · exact h.near k hk
  · intro k h1 h2 h3 lane h4 h5
    rw [hl lane k h2] at h5
    split at h5
    · exact absurd rfl h5
    · rename_i hk
      have := h.scan k h1 h2 h3 lane h4 h5
      rw [hr, hw]
      unfold upd
      rw [if_neg (by omega)]
      exact this
  · intro k h1 h2 h3 lane h4
    rw [hl lane k h2]
    split
    · rfl
    · exact h.hash k h1 h2 h3 lane h4

theorem nestloop_inv (env : Env) (d : Nat) (s : State) (r : Int) (s' : State) (hL : 0 < env.L)
    (hrows : 0 < (env.inner d).nitems) (hd1 : 1 ≤ d) (hdN : d ≤ env.num_rels)
    (hnl : (env.chunks (d - 1)).is_nestloop = true)
    (h : CursorInv env s) (hg : no_wrap env s)
    (hres : gpujoin_exec_nestloop env d s = some (r, s')) : CursorInv env s' := by
  unfold gpujoin_exec_nestloop at hres
  simp only at hres
  split at hres
  · rename_i hall
    split at hres
    · injection hres with hres
      have := congrArg Prod.snd hres
      simp only at this
      rw [← this]
      apply exec_append_inv
      · exact hdN
      · exact CursorInv_grow env s _ h rfl (fun _ _ _ => rfl) (fun _ => le_refl _)
      · exact hg
    · injection hres with hres
      have := congrArg Prod.snd hres
      simp only at this
      rw [← this]
      have h0 := List.all_eq_true.mp hall 0 (List.mem_range.mpr hL)
      simp only [decide_eq_true_eq] at h0
      have hread := h.scan d hd1 hdN hnl 0 hL (by omega)
      refine CursorInv_advance env s _ (d - 1) h hread rfl rfl ?_
      intro lane k _
      have hd : d - 1 + 1 = d := by omega
      simp only [updAll, hd]
  · split at hres
    · cases hres
    · split at hres
      · injection hres with hres
        have := congrArg Prod.snd hres
        simp only at this
        rw [← this]
        exact exec_drained_inv env d s hL h
      · rename_i hread
        injection hres with hres
        have := congrArg Prod.snd hres
        simp only at this
        rw [← this]
        apply exec_append_inv
        · exact hdN
        · constructor
          · exact h.near
          · intro k h1 h2 h3 lane h4 h5
            by_cases hk : k = d
            · subst hk
              show s.read_pos (k - 1) < s.write_pos (k - 1)
              omega
            · have h5' : s.l_state lane k ≠ 0 := by
                simpa only [updEach, if_neg hk] using h5
              exact h.scan k h1 h2 h3 lane h4 h5'
          · intro k h1 h2 h3 lane h4
            have hk : k ≠ d := by
              intro hk
              subst hk
              rw [hnl] at h3
              exact Bool.noConfusion h3
            simp only [updEach, if_neg hk]
            exact h.hash k h1 h2 h3 lane h4
        · exact hg

theorem hashjoin_inv (env : Env) (d : Nat) (s : State) (hL : 0 < env.L)
    (hd1 : 1 ≤ d) (hdN : d ≤ env.num_rels)
    (hnl : (env.chunks (d - 1)).is_nestloop = false)
    (h : CursorInv env s) (hg : no_wrap env s) :
    CursorInv env (gpujoin_exec_hashjoin env d s).2 := by
  unfold gpujoin_exec_hashjoin
  simp only
  split
  · rename_i hor
    have h0 := (syncthreads_or_eq_false _ _).mp hor 0 hL
    have hz := h.hash d hd1 hdN hnl 0 hL
    simp [hz, UINT_MAX] at h0
  · split
    · exact exec_drained_inv env d s hL h
    · apply exec_append_inv
      · exact hdN
      · exact CursorInv_grow env s _ h rfl (fun _ _ _ => rfl) (fun _ => le_refl _)
      · exact hg

theorem projection_inv (env : Env) (s : State) (hL : 0 < env.L) (h : CursorInv env s) :
    CursorInv env (gpujoin_projection_row env s).2 := by
  unfold gpujoin_projection_row
  split
  · exact rewind_inv env _ s hL h
  · rename_i hread
    have hread' : s.read_pos env.num_rels < s.write_pos env.num_rels := by omega
    have hl : ∀ (lane k : Nat), k ≤ env.num_rels →
        s.l_state lane k = if k = env.num_rels + 1 then 0 else s.l_state lane k := by
      intro lane k hk
      rw [if_neg (by omega)]
    split
    · exact CursorInv_advance env s _ env.num_rels h hread' rfl rfl hl
    · split
      · exact CursorInv_advance env s _ env.num_rels h hread' rfl rfl hl
      · have hf := proj_step3_frame env s
        have hl3 : ∀ (lane k : Nat), k ≤ env.num_rels →
            (proj_step3 env s).l_state lane k
              = if k = env.num_rels + 1 then 0 else s.l_state lane k := by
          intro lane k hk
          rw [hf.2.2.1]
          exact hl lane k hk
        split
        · exact CursorInv_advance env s _ env.num_rels h hread' hf.1 hf.2.1 hl3
        · exact CursorInv_advance env s _ env.num_rels h hread' hf.1 hf.2.1 hl3

/-- The cursor invariant holds in every reachable state. -/
theorem reach_inv (env : Env) (hL : 0 < env.L)
    (hrows : ∀ d, 1 ≤ d → d ≤ env.num_rels → (env.chunks (d - 1)).is_nestloop = true →
      0 < (env.inner d).nitems)
    (s : State) (h : Reach env (no_wrap env) s) : CursorInv env s := by
  induction h with
  | init p pstack ojmap => exact CursorInv_init env hL p pstack ojmap
  | load_source s _ hg ih => exact load_source_inv env s ih hg
  | nestloop s d r s' _ hg h1 h2 h3 hres ih =>
    exact nestloop_inv env d s r s' hL (hrows d h1 h2 h3) h1 h2 h3 ih hg hres
  | hashjoin s d _ hg h1 h2 h3 ih => exact hashjoin_inv env d s hL h1 h2 h3 ih hg
  | projection s _ _ ih => exact projection_inv env s hL ih
  | rewind s d _ _ _ ih => exact rewind_inv env d s hL ih

/-- The handler the traversal loop dispatches leads from a reachable state to
a reachable state. -/
theorem reach_dispatch (env : Env) (guard : State → Prop) (depth : Nat) (s : State)
    (q : Int × State) (h : Reach env guard s) (hg : guard s)
    (hq : gpujoin_dispatch env depth s = some q) : Reach env guard q.2 := by
  unfold gpujoin_dispatch at hq
  split at hq
  · injection hq with hq
    rw [← hq]
    exact Reach.load_source s h hg
  · split at hq
    · injection hq with hq
      rw [← hq]
      exact Reach.projection s h hg
    · split at hq
      · rename_i h0 hN hnl
        exact Reach.nestloop s depth q.1 q.2 h hg (by omega) (by omega) hnl hq
      · rename_i h0 hN hnl
        injection hq with hq
        rw [← hq]
        exact Reach.hashjoin s depth h hg (by omega) (by omega) (by simpa using hnl)

/-- The states of the traversal loop are reachable, when the guard holds at
the head of each iteration run. -/
theorem reach_run (env : Env) (guard : State → Prop) (n : Nat) (p : Int × State)
    (h : Reach env guard p.2)
    (hg : ∀ k, k < n → guard (run_dispatch env k p).2) :
    Reach env guard (run_dispatch env n p).2 := by
  induction n generalizing p with
  | zero => exact h
  | succ n ih =>
    have hg0 : guard p.2 := hg 0 (by omega)
    unfold run_dispatch
    split
    · exact h
    · rename_i hneg
      split
      · exact h
      · rename_i hstop
        split
        · exact h
        · rename_i q hq
          apply ih q (reach_dispatch env guard _ p.2 q h hg0 hq)
          intro k hk
          have := hg (k + 1) (by omega)
          unfold run_dispatch at this
          rw [if_neg hneg, if_neg hstop] at this
          simp only [hq] at this
          exact this

/-- Without the condition on the inner relations the read cursor runs away:
over an empty nested-loop relation every call advances `read_pos[0]` by the
group size. -/
theorem empty_relation_read_cursor_runs_away :
    Reach empty_inner_env (no_wrap empty_inner_env) (demo_state empty_inner_env 4)
    ∧ (demo_state empty_inner_env 4).read_pos 0 = 6
    ∧ (demo_state empty_inner_env 4).write_pos 0 = 1 :=
  ⟨reach_run empty_inner_env (no_wrap empty_inner_env) 4 (0, demo_init empty_inner_env)
    (Reach.init 0 _ _) (by decide), by decide, by decide⟩

/-! ## Hash-join scan state -/

theorem syncthreads_or_eq_true' (L : Nat) (p : Nat → Bool) (l : Nat) (hl : l < L)
    (h : p l = true) : syncthreads_or L p = true := by
  unfold syncthreads_or
  exact List.any_eq_true.mpr ⟨l, List.mem_range.mpr hl, h⟩

theorem rewind_l_state_ge (d : Nat) (s : State) (lane j : Nat) (hj : d ≤ j) :
    (gpujoin_rewind_stack d s).2.l_state lane j = s.l_state lane j := by
  induction d generalizing s with
  | zero => rfl
  | succ d ih =>
    unfold gpujoin_rewind_stack
    split
    · rfl
    · rw [ih _ (by omega)]
      simp only [rewind_reset, updAll]
      rw [if_neg (by omega)]

theorem rewind_read_pos_le (d : Nat) (s : State) (j : Nat) :
    (gpujoin_rewind_stack d s).2.read_pos j ≤ s.read_pos j := by
  induction d generalizing s with
  | zero => exact le_refl _
  | succ d ih =>
    unfold gpujoin_rewind_stack
    split
    · exact le_refl _
    · refine le_trans (ih _) ?_
      simp only [rewind_reset, upd]
      split
      · exact Nat.zero_le _
      · exact le_refl _

theorem exec_append_l_state (env : Env) (d : Nat) (s : State) (res : Nat → Bool)
    (rd : Nat → Nat) (loc : Nat → Nat) :
    (exec_append env d s res rd loc).2.l_state = s.l_state
    ∧ (exec_append env d s res rd loc).2.read_pos = s.read_pos := by
  unfold exec_append
  simp only
  split <;> exact ⟨rfl, rfl⟩

/-- A hash-join call on a group whose scan states of the depth are zero leaves
them zero and does not advance the read cursor of the depth below. -/
theorem hashjoin_keeps_scan_state (env : Env) (d : Nat) (s : State) (hL : 0 < env.L)
    (h0 : ∀ lane, lane < env.L → s.l_state lane d = 0) :
    (∀ lane, lane < env.L → (gpujoin_exec_hashjoin env d s).2.l_state lane d = 0)
    ∧ ∀ j, (gpujoin_exec_hashjoin env d s).2.read_pos j ≤ s.read_pos j := by
  have hor : syncthreads_or env.L (fun l => decide (s.l_state l d ≠ UINT_MAX)) = true :=
    syncthreads_or_eq_true' env.L _ 0 hL (by simp [h0 0 hL, UINT_MAX])
  unfold gpujoin_exec_hashjoin
  simp only [hor, Bool.true_eq_false, if_false]
  split
  · unfold exec_drained
    split
    · exact ⟨fun lane hl => by rw [rewind_l_state_ge d s lane d (le_refl _)]; exact h0 lane hl,
        fun j => rewind_read_pos_le d s j⟩
    · exact ⟨h0, fun j => le_refl _⟩
  · refine ⟨fun lane hl => ?_, fun j => ?_⟩
    · rw [(exec_append_l_state _ _ _ _ _ _).1]; exact h0 lane hl
    · rw [(exec_append_l_state _ _ _ _ _ _).2]

/-- However many hash-join calls are made at a depth, the scan states stay
zero, so no lane is ever exhausted and the read cursor of the depth below is
never advanced. -/
theorem hashjoin_passes_never_advance (env : Env) (d : Nat) (hL : 0 < env.L) (n : Nat)
    (s : State) (h0 : ∀ lane, lane < env.L → s.l_state lane d = 0) :
    (∀ lane, lane < env.L → (hashjoin_passes env d n s).l_state lane d = 0)
    ∧ ∀ j, (hashjoin_passes env d n s).read_pos j ≤ s.read_pos j := by
  induction n generalizing s with
  | zero => exact ⟨h0, fun j => le_refl _⟩
  | succ n ih =>
    obtain ⟨h1, h2⟩ := hashjoin_keeps_scan_state env d s hL h0
    obtain ⟨h3, h4⟩ := ih _ h1
    exact ⟨h3, fun j => le_trans (h4 j) (h2 j)⟩

/-! ## Stores of a pass -/

theorem countP_range_succ (p : Nat → Bool) (n : Nat) :
    (List.range (n + 1)).countP p = (List.range n).countP p + (if p n then 1 else 0) := by
  rw [List.range_succ, List.countP_append]
  simp [List.countP_cons]

theorem countP_range_mono (p : Nat → Bool) (l n : Nat) (h : l ≤ n) :
    (List.range l).countP p ≤ (List.range n).countP p := by
  induction n with
  | zero =>
    have : l = 0 := by omega
    subst this
    exact le_refl _
  | succ n ih =>
    by_cases hl : l = n + 1
    · subst hl; exact le_refl _
    · have := ih (by omega)
      rw [countP_range_succ]
      omega

theorem countP_range_lt (p : Nat → Bool) (l n : Nat) (h : l < n) (hp : p l = true) :
    (List.range l).countP p < (List.range n).countP p := by
  have h1 := countP_range_mono p (l + 1) n (by omega)
  rw [countP_range_succ, hp] at h1
  simp only [if_true] at h1
  omega

theorem storeLanes_succ (n : Nat) (en : Nat → Bool) (addr : Nat → Nat)
    (entry : Nat → List Nat) (mem : Nat → Nat) :
    storeLanes (n + 1) en addr entry mem
      = if en n then writeWords (storeLanes n en addr entry mem) (addr n) (entry n)
        else storeLanes n en addr entry mem := by
  unfold storeLanes
  rw [List.range_succ, List.foldl_append]
  rfl

theorem storeLanes_congr (n : Nat) (en : Nat → Bool) (addr addr' : Nat → Nat)
    (entry : Nat → List Nat) (mem : Nat → Nat) (h : ∀ l, l < n → addr l = addr' l) :
    storeLanes n en addr entry mem = storeLanes n en addr' entry mem := by
  induction n with
  | zero => rfl
  | succ n ih =>
    rw [storeLanes_succ, storeLanes_succ, ih (fun l hl => h l (by omega)), h n (by omega)]

theorem writeWords_outside (mem : Nat → Nat) (base : Nat) (ws : List Nat) (a : Nat)
    (h : a < base ∨ base + ws.length ≤ a) : writeWords mem base ws a = mem a := by
  unfold writeWords
  rw [if_neg (by omega)]

theorem readWords_length (mem : Nat → Nat) (base n : Nat) : (readWords mem base n).length = n := by
  simp [readWords]

theorem readWords_congr (m m' : Nat → Nat) (base n : Nat)
    (h : ∀ a, base ≤ a → a < base + n → m a = m' a) :
    readWords m base n = readWords m' base n := by
  unfold readWords
  apply List.map_congr_left
  intro k hk
  have := List.mem_range.mp hk
  exact h _ (by omega) (by omega)

theorem readWords_writeWords (mem : Nat → Nat) (base : Nat) (ws : List Nat) :
    readWords (writeWords mem base ws) base ws.length = ws := by
  apply List.ext_getElem
  · simp [readWords]
  · intro i h1 h2
    simp only [readWords, List.getElem_map, List.getElem_range, writeWords]
    rw [if_pos (by omega)]
    simp [List.getD_eq_getElem?_getD, h2]

/-- The lanes of a pass store their entries of `w` words in consecutive slots
from `base`, in lane order: nothing outside the new slots changes, and the
slot of a storing lane holds its entry. -/
theorem storeLanes_compact (w n : Nat) (en : Nat → Bool) (entry : Nat → List Nat)
    (hlen : ∀ l, (entry l).length = w) (base : Nat) (mem : Nat → Nat) :
    (∀ a, a < base ∨ base + (List.range n).countP en * w ≤ a →
        storeLanes n en (fun l => base + (List.range l).countP en * w) entry mem a = mem a)
    ∧ (∀ l, l < n → en l = true →
        readWords (storeLanes n en (fun l => base + (List.range l).countP en * w) entry mem)
          (base + (List.range l).countP en * w) w = entry l) := by
  induction n with
  | zero =>
    exact ⟨fun a _ => rfl, fun l hl => absurd hl (Nat.not_lt_zero l)⟩
  | succ n ih =>
    obtain ⟨ih1, ih2⟩ := ih
    rw [storeLanes_succ]
    by_cases hen : en n = true
    · simp only [hen, if_true]
      have hc : (List.range (n + 1)).countP en = (List.range n).countP en + 1 := by
        rw [countP_range_succ, hen]; rfl
      refine ⟨fun a ha => ?_, fun l hl hel => ?_⟩
      · rw [hc, Nat.add_mul] at ha
        rw [writeWords_outside _ _ _ _ (by rw [hlen]; omega)]
        exact ih1 a (by omega)
      · by_cases hln : l = n
        · subst hln
          have := readWords_writeWords
            (storeLanes l en (fun l => base + (List.range l).countP en * w) entry mem)
            (base + (List.range l).countP en * w) (entry l)
          rw [hlen] at this
          exact this
        · have hlt : l < n := by omega
          have hcl := countP_range_lt en l n hlt hel
          have hmul : ((List.range l).countP en + 1) * w ≤ (List.range n).countP en * w :=
            Nat.mul_le_mul_right w hcl
          rw [Nat.add_mul, Nat.one_mul] at hmul
          rw [← ih2 l hlt hel]
          apply readWords_congr
          intro a ha1 ha2
          exact writeWords_outside _ _ _ _ (Or.inl (by omega))
    · have hen' : en n = false := by simpa using hen
      simp only [hen', Bool.false_eq_true, if_false]
      have hc : (List.range (n + 1)).countP en = (List.range n).countP en := by
        rw [countP_range_succ, hen']; rfl
      refine ⟨fun a ha => ?_, fun l hl hel => ?_⟩
      · rw [hc] at ha
        exact ih1 a ha
      · have hlt : l < n := by
          by_contra hc'
          have : l = n := by omega
          subst this
          rw [hel] at hen'
          exact Bool.noConfusion hen'
        exact ih2 l hlt hel

/-! ## Source loader -/

theorem readWords_succ (m : Nat → Nat) (base k : Nat) :
    readWords m base (k + 1) = readWords m base k ++ [m (base + k)] := by
  simp [readWords, List.range_succ]

/-- One-word entries: the new slots read, in order, the values of the storing
lanes in lane order. -/
theorem storeLanes_list (n : Nat) (en : Nat → Bool) (val : Nat → Nat) (base : Nat)
    (mem : Nat → Nat) :
    readWords (storeLanes n en (fun l => base + (List.range l).countP en) (fun l => [val l]) mem)
        base ((List.range n).countP en)
      = ((List.range n).filter (fun l => en l)).map val := by
  induction n with
  | zero => rfl
  | succ n ih =>
    rw [storeLanes_succ, countP_range_succ, List.range_succ, List.filter_append, List.map_append]
    by_cases hen : en n = true
    · simp only [hen, if_true, List.filter_cons, List.filter_nil, List.map_cons, List.map_nil]
      rw [readWords_succ, ← ih]
      congr 1
      · apply readWords_congr
        intro a _ ha
        exact writeWords_outside _ _ _ _ (Or.inl (by omega))
      · simp [writeWords]
    · have hen' : en n = false := by simpa using hen
      simp only [hen', Bool.false_eq_true, if_false, List.filter_cons, List.filter_nil,
        List.map_nil, List.append_nil, Nat.add_zero]
      exact ih

theorem readWords_one (m : Nat → Nat) (base : Nat) : readWords m base 1 = [m base] := rfl

theorem PSTACK_DEPTH_zero (env : Env) : PSTACK_DEPTH env 0 = 0 := by
  simp [PSTACK_DEPTH, u32]

/-- A source-loader call in which some lane fetched a row and no lane carries
an error returns with the cursors and the pseudo-stack of `load_store`. -/
theorem load_source_stored (env : Env) (s : State)
    (hfetch : 0 < syncthreads_count env.L (fun l => (load_fetch env s l).isSome))
    (hnoerr : ∀ l, l < env.L → load_errcode env s l = 0) :
    (gpujoin_load_source env s).2.write_pos = (load_store env s).write_pos
    ∧ (gpujoin_load_source env s).2.pstack = (load_store env s).pstack := by
  have herr : ¬ syncthreads_count env.L (fun l => decide (load_errcode env s l ≠ 0)) > 0 := by
    have : syncthreads_count env.L (fun l => decide (load_errcode env s l ≠ 0)) = 0 := by
      unfold syncthreads_count
      rw [List.countP_eq_zero]
      intro l hl
      simp [hnoerr l (List.mem_range.mp hl)]
    omega
  unfold gpujoin_load_source
  rw [if_pos hfetch, if_neg herr]
  split
  · exact ⟨rfl, rfl⟩
  · have ht : ∀ x, (load_source_tail env x).2 = x := by
      intro x
      unfold load_source_tail
      split
      · split <;> rfl
      · rfl
    rw [ht]
    unfold load_advance
    split <;> exact ⟨rfl, rfl⟩

theorem load_store_pstack (env : Env) (s : State) (hw : s.write_pos 0 + env.L < 4294967296) :
    (load_store env s).pstack
      = storeLanes env.L (load_visible env s)
          (fun l => s.write_pos 0 + (List.range l).countP (load_visible env s))
          (fun l => [load_t_offset env s l]) s.pstack := by
  simp only [load_store]
  apply storeLanes_congr
  intro l hl
  have hc := countP_range_mono (load_visible env s) l env.L (by omega)
  have hL : (List.range env.L).countP (load_visible env s) ≤ env.L := by
    have := List.countP_le_length (load_visible env s) (l := List.range env.L)
    simpa using this
  rw [PSTACK_DEPTH_zero, Nat.zero_add, load_wr_index, pgstromStairlikeBinaryCount, u32]
  exact Nat.mod_eq_of_lt (by omega)

/-! ## Rewind -/

/-- `gpujoin_rewind_stack(d, ..)` leaves the depths `d` and above alone. -/
theorem rewind_frame (d : Nat) (s : State) (j : Nat) (hj : d ≤ j) :
    (gpujoin_rewind_stack d s).2.read_pos j = s.read_pos j
    ∧ (gpujoin_rewind_stack d s).2.write_pos j = s.write_pos j
    ∧ (∀ lane, (gpujoin_rewind_stack d s).2.l_state lane j = s.l_state lane j)
    ∧ (∀ lane, (gpujoin_rewind_stack d s).2.matched lane j = s.matched lane j) := by
  induction d generalizing s with
  | zero => exact ⟨rfl, rfl, fun _ => rfl, fun _ => rfl⟩
  | succ d ih =>
    unfold gpujoin_rewind_stack
    split
    · exact ⟨rfl, rfl, fun _ => rfl, fun _ => rfl⟩
    · obtain ⟨h1, h2, h3, h4⟩ := ih (rewind_reset d s) (by omega)
      have hne : j ≠ d := by omega
      refine ⟨?_, ?_, fun lane => ?_, fun lane => ?_⟩
      · rw [h1]; simp [rewind_reset, upd, hne]
      · rw [h2]; simp [rewind_reset, upd, hne]
      · rw [h3]; simp [rewind_reset, updAll, hne]
      · rw [h4]; simp [rewind_reset, updAll, hne]

theorem rewind_reset_depth (d : Nat) (s : State) : depth_reset (rewind_reset d s) d := by
  refine ⟨?_, ?_, fun lane => ⟨?_, ?_⟩⟩ <;> simp [rewind_reset, upd, updAll]

theorem depth_reset_of_frame (d : Nat) (s : State) (j : Nat) (hj : d ≤ j)
    (h : depth_reset s j) : depth_reset (gpujoin_rewind_stack d s).2 j := by
  obtain ⟨h1, h2, h3, h4⟩ := rewind_frame d s j hj
  obtain ⟨g1, g2, g3⟩ := h
  exact ⟨by rw [h1, g1], by rw [h2, g2], fun lane => ⟨by rw [h3, (g3 lane).1],
    by rw [h4, (g3 lane).2]⟩⟩

/-- What `gpujoin_rewind_stack` returns and resets. -/
theorem rewind_spec (d : Nat) (s : State) (hd : 0 < d) :
    ∃ k : Nat, (gpujoin_rewind_stack d s).1 = (k : Int) ∧ k < d
      ∧ (∀ j, k < j → j < d → ¬ s.read_pos j < s.write_pos j)
      ∧ (s.read_pos k < s.write_pos k ∨ k = 0)
      ∧ (∀ j, k < j → j < d → depth_reset (gpujoin_rewind_stack d s).2 j)
      ∧ (¬ s.read_pos k < s.write_pos k → depth_reset (gpujoin_rewind_stack d s).2 k)
      ∧ (s.read_pos k < s.write_pos k →
          (gpujoin_rewind_stack d s).2.read_pos k = s.read_pos k
          ∧ (gpujoin_rewind_stack d s).2.write_pos k = s.write_pos k)
      ∧ (∀ j, j < k →
          (gpujoin_rewind_stack d s).2.read_pos j = s.read_pos j
          ∧ (gpujoin_rewind_stack d s).2.write_pos j = s.write_pos j) := by
  induction d generalizing s with
  | zero => omega
  | succ d ih =>
    by_cases hlt : s.read_pos d < s.write_pos d
    · refine ⟨d, ?_, by omega, fun j h1 h2 => by omega, Or.inl hlt, fun j h1 h2 => by omega,
        fun h => absurd hlt h, fun _ => ?_, fun j _ => ?_⟩
      · unfold gpujoin_rewind_stack; rw [if_pos hlt]
      · unfold gpujoin_rewind_stack; rw [if_pos hlt]; exact ⟨rfl, rfl⟩
      · unfold gpujoin_rewind_stack; rw [if_pos hlt]; exact ⟨rfl, rfl⟩
    · have hstep : gpujoin_rewind_stack (d + 1) s = gpujoin_rewind_stack d (rewind_reset d s) := by
        conv_lhs => unfold gpujoin_rewind_stack
        rw [if_neg hlt]
      rw [hstep]
      by_cases hd0 : d = 0
      · subst hd0
        refine ⟨0, rfl, by omega, fun j h1 h2 => by omega, Or.inr rfl,
          fun j h1 h2 => by omega, fun _ => rewind_reset_depth 0 s, fun h => absurd h hlt,
          fun j hj => absurd hj (Nat.not_lt_zero j)⟩
      · obtain ⟨k, hk1, hk2, hk3, hk4, hk5, hk6, hk7, hk8⟩ := ih (rewind_reset d s) (by omega)
        have hcur : ∀ j, j < d → (rewind_reset d s).read_pos j = s.read_pos j
            ∧ (rewind_reset d s).write_pos j = s.write_pos j := by
          intro j hj
          have hne : j ≠ d := by omega
          simp [rewind_reset, upd, hne]
        refine ⟨k, hk1, by omega, fun j h1 h2 => ?_, ?_, fun j h1 h2 => ?_, fun h => ?_,
          fun h => ?_, fun j hj => ?_⟩
        · by_cases hjd : j = d
          · subst hjd; exact hlt
          · have := hk3 j h1 (by omega)
            rw [(hcur j (by omega)).1, (hcur j (by omega)).2] at this
            exact this
        · rw [(hcur k hk2).1, (hcur k hk2).2] at hk4
          exact hk4
        · by_cases hjd : j = d
          · subst hjd
            exact depth_reset_of_frame j _ j (le_refl _) (rewind_reset_depth j s)
          · exact hk5 j h1 (by omega)
        · apply hk6
          rw [(hcur k hk2).1, (hcur k hk2).2]
          exact h
        · have := hk7 (by rw [(hcur k hk2).1, (hcur k hk2).2]; exact h)
          rw [(hcur k hk2).1, (hcur k hk2).2] at this
          exact this
        · have := hk8 j hj
          rw [(hcur j (by omega)).1, (hcur j (by omega)).2] at this
          exact this

/-! ## Executor entries -/

/-- The entries of a pass of an executor, when the slot arithmetic stays in
the `cl_uint` range: the write cursor grows by the number of appending lanes,
the slot of an appending lane (old write cursor plus the number of
lower-indexed appending lanes) holds the words found at its read address
followed by its inner locator, and no word outside the new slots changes. -/
theorem exec_append_entries (env : Env) (d : Nat) (s : State) (res : Nat → Bool)
    (rd : Nat → Nat) (loc : Nat → Nat)
    (hnw : (s.write_pos d + env.L) * (d + 1) < 4294967296) :
    (exec_append env d s res rd loc).2.write_pos d
        = s.write_pos d + syncthreads_count env.L res
    ∧ (∀ l, l < env.L → res l = true →
        readWords (exec_append env d s res rd loc).2.pstack
            (PSTACK_DEPTH env d
              + (s.write_pos d + pgstromStairlikeBinaryCount res l) * (d + 1)) (d + 1)
          = readWords s.pstack (rd l) d ++ [loc l])
    ∧ (∀ a, a < PSTACK_DEPTH env d + s.write_pos d * (d + 1)
          ∨ PSTACK_DEPTH env d + (s.write_pos d + syncthreads_count env.L res) * (d + 1) ≤ a →
        (exec_append env d s res rd loc).2.pstack a = s.pstack a) := by
  have hL : (List.range env.L).countP res ≤ env.L := by
    have := List.countP_le_length res (l := List.range env.L)
    simpa using this
  have hwp : s.write_pos d + env.L < 4294967296 := by
    have : s.write_pos d + env.L ≤ (s.write_pos d + env.L) * (d + 1) :=
      Nat.le_mul_of_pos_right _ (by omega)
    omega
  have hps : (exec_append env d s res rd loc).2.pstack
      = storeLanes env.L res
          (fun l => (PSTACK_DEPTH env d + s.write_pos d * (d + 1))
            + (List.range l).countP res * (d + 1))
          (fun l => readWords s.pstack (rd l) d ++ [loc l]) s.pstack := by
    have : (exec_append env d s res rd loc).2.pstack
        = storeLanes env.L res
          (fun l => PSTACK_DEPTH env d
            + u32 (u32 (s.write_pos d + pgstromStairlikeBinaryCount res l) * (d + 1)))
          (fun l => readWords s.pstack (rd l) d ++ [loc l]) s.pstack := by
      unfold exec_append
      simp only
      split <;> rfl
    rw [this]
    apply storeLanes_congr
    intro l hl
    have hc := countP_range_mono res l env.L (by omega)
    have h1 : s.write_pos d + (List.range l).countP res ≤ s.write_pos d + env.L := by omega
    have h2 : (s.write_pos d + (List.range l).countP res) * (d + 1)
        ≤ (s.write_pos d + env.L) * (d + 1) := Nat.mul_le_mul_right _ h1
    simp only [pgstromStairlikeBinaryCount, u32]
    rw [Nat.mod_eq_of_lt (by omega : s.write_pos d + (List.range l).countP res < 4294967296),
      Nat.mod_eq_of_lt (by omega), Nat.add_mul]
    omega
  have hwr : (exec_append env d s res rd loc).2.write_pos d
      = s.write_pos d + syncthreads_count env.L res := by
    have : (exec_append env d s res rd loc).2.write_pos
        = upd s.write_pos d (u32 (s.write_pos d + syncthreads_count env.L res)) := by
      unfold exec_append
      simp only
      split <;> rfl
    rw [this]
    simp only [upd, if_true, u32, syncthreads_count]
    exact Nat.mod_eq_of_lt (by omega)
  have hcomp := storeLanes_compact (d + 1) env.L res
    (fun l => readWords s.pstack (rd l) d ++ [loc l])
    (fun l => by simp [readWords_length])
    (PSTACK_DEPTH env d + s.write_pos d * (d + 1)) s.pstack
  refine ⟨hwr, fun l hl hres => ?_, fun a ha => ?_⟩
  · rw [hps]
    have := hcomp.2 l hl hres
    simp only [pgstromStairlikeBinaryCount]
    rw [Nat.add_mul, ← Nat.add_assoc]
    exact this
  · rw [hps]
    apply hcomp.1
    simp only [syncthreads_count] at ha
    rw [Nat.add_mul, ← Nat.add_assoc] at ha
    exact ha

/-- A probing pass of the hash join is the common append of the lanes with
`hashjoin_result`, each storing its outer combination and `hashjoin_loc`. -/
theorem hashjoin_probe_eq (env : Env) (d : Nat) (s : State)
    (hor : syncthreads_or env.L (fun l => decide (s.l_state l d ≠ UINT_MAX)) = true)
    (hread : s.read_pos (d - 1) < s.write_pos (d - 1)) :
    gpujoin_exec_hashjoin env d s
      = exec_append env d
          { s with
            matched := updEach s.matched d (hashjoin_matched env d s)
            errcode := hashjoin_errcode env d s
            ojmap := ojmap_mark env.L (KERN_MULTIRELS_OUTER_JOIN_MAP env d)
              (hashjoin_mark env d s) s.ojmap }
          (hashjoin_result env d s) (outer_addr env s d) (hashjoin_loc env d s) := by
  unfold gpujoin_exec_hashjoin
  simp only [hor, Bool.true_eq_false, if_false, if_neg (not_le.mpr hread)]
  rfl

/-! ## Null keys -/

theorem ojmap_fold_origin (base : Nat) (mark : Nat → Option Nat) (ls : List Nat)
    (mem : Nat → Bool) (a : Nat)
    (h : ls.foldl (fun m l => match mark l with
        | some i => upd m (base + i) true
        | none => m) mem a = true) :
    mem a = true ∨ ∃ l i, l ∈ ls ∧ mark l = some i ∧ a = base + i := by
  induction ls generalizing mem with
  | nil => exact Or.inl h
  | cons l ls ih =>
    simp only [List.foldl_cons] at h
    rcases ih _ h with h1 | ⟨l', i, hl', hm, ha⟩
    · cases hm : mark l with
      | none =>
        rw [hm] at h1
        exact Or.inl h1
      | some i =>
        rw [hm] at h1
        simp only [upd] at h1
        split at h1
        · rename_i hai
          exact Or.inr ⟨l, i, List.mem_cons_self _ _, hm, hai⟩
        · exact Or.inl h1
    · exact Or.inr ⟨l', i, List.mem_cons_of_mem _ hl', hm, ha⟩

/-- An entry of the outer-join map that is set after a pass was set before or
was marked by a lane of the group. -/
theorem ojmap_mark_origin (L : Nat) (oj : Option Nat) (mark : Nat → Option Nat)
    (mem : Nat → Bool) (a : Nat) (h : ojmap_mark L oj mark mem a = true) :
    mem a = true ∨ ∃ base l i, oj = some base ∧ l < L ∧ mark l = some i ∧ a = base + i := by
  cases oj with
  | none => exact Or.inl h
  | some base =>
    rcases ojmap_fold_origin base mark _ mem a h with h1 | ⟨l, i, hl, hm, ha⟩
    · exact Or.inl h1
    · exact Or.inr ⟨base, l, i, rfl, List.mem_range.mp hl, hm, ha⟩

theorem exec_append_matched (env : Env) (d : Nat) (s : State) (res : Nat → Bool)
    (rd : Nat → Nat) (loc : Nat → Nat) :
    (exec_append env d s res rd loc).2.matched = s.matched
    ∧ (exec_append env d s res rd loc).2.ojmap = s.ojmap := by
  unfold exec_append
  simp only
  split <;> exact ⟨rfl, rfl⟩

/-! ## Projection layout -/

theorem prefix_sum_succ (v : Nat → Nat) (n : Nat) :
    ((List.range (n + 1)).map v).sum = ((List.range n).map v).sum + v n := by
  simp [List.range_succ]

theorem prefix_sum_le (v : Nat → Nat) (l n : Nat) (h : l < n) :
    ((List.range l).map v).sum + v l ≤ ((List.range n).map v).sum := by
  induction n with
  | zero => omega
  | succ n ih =>
    rw [prefix_sum_succ]
    by_cases hl : l = n
    · subst hl; exact le_refl _
    · have := ih (by omega)
      omega

theorem fold_upd_succ {α : Type} (n : Nat) (en : Nat → Bool) (key : Nat → Nat) (val : Nat → α)
    (m : Nat → α) :
    (List.range (n + 1)).foldl (fun m l => if en l then upd m (key l) (val l) else m) m
      = if en n then
          upd ((List.range n).foldl (fun m l => if en l then upd m (key l) (val l) else m) m)
            (key n) (val n)
        else (List.range n).foldl (fun m l => if en l then upd m (key l) (val l) else m) m := by
  rw [List.range_succ, List.foldl_append]
  rfl

/-- Stores of the lanes under distinct keys: the cell of a storing lane holds
its value. -/
theorem fold_upd_get {α : Type} (n : Nat) (en : Nat → Bool) (key : Nat → Nat) (val : Nat → α)
    (m : Nat → α) (l : Nat) (hl : l < n) (hen : en l = true)
    (hinj : ∀ l', l < l' → l' < n → en l' = true → key l' ≠ key l) :
    (List.range n).foldl (fun m l => if en l then upd m (key l) (val l) else m) m (key l)
      = val l := by
  induction n with
  | zero => omega
  | succ n ih =>
    rw [fold_upd_succ]
    by_cases hln : l = n
    · subst hln
      simp [hen, upd]
    · have hlt : l < n := by omega
      have ih' := ih hlt (fun l' h1 h2 h3 => hinj l' h1 (by omega) h3)
      by_cases hn : en n = true
      · have hne := hinj n hlt (by omega) hn
        simp only [hn, if_true, upd]
        rw [if_neg (Ne.symm hne)]
        exact ih'
      · have hn' : en n = false := by simpa using hn
        simp only [hn', Bool.false_eq_true, if_false]
        exact ih'

theorem u32sub_of_le (a b : Nat) (ha : a < 4294967296) (hb : b ≤ a) : u32sub a b = a - b := by
  unfold u32sub
  rw [Nat.mod_eq_of_lt ha, Nat.mod_eq_of_lt (by omega : b < 4294967296)]
  have : a + 4294967296 - b = (a - b) + 4294967296 := by omega
  rw [this, Nat.add_mod_right]
  exact Nat.mod_eq_of_lt (by omega)

theorem proj_nvalids_le (env : Env) (s : State) : proj_nvalids env s ≤ env.L := by
  unfold proj_nvalids
  exact Nat.min_le_right _ _

/-- The capacity test passed and nothing wraps: the tuple of a lane starts at
`length - (base usage + bytes of the lower-indexed lanes + own bytes)`. -/
theorem proj_tup_pos_eq (env : Env) (s : State)
    (hns : proj_nospace env s = false)
    (hlen : env.dst_length < 4294967296)
    (hsum : ((List.range env.L).map (proj_required env s)).sum < 4294967296)
    (l : Nat) (hl : l < env.L) :
    proj_tup_pos env s l
        + (s.dst_usage + ((List.range l).map (proj_required env s)).sum + proj_required env s l)
      = env.dst_length
    ∧ env.dst_head_length + env.stromalign (4 * u32 (s.dst_nitems + proj_nvalids env s))
        + s.dst_usage + ((List.range env.L).map (proj_required env s)).sum ≤ env.dst_length := by
  have hcap := hns
  simp only [proj_nospace, decide_eq_false_iff_not, not_lt] at hcap
  have hcount : proj_count env s = ((List.range env.L).map (proj_required env s)).sum := by
    simp only [proj_count, stairlikeTotal, u32]
    exact Nat.mod_eq_of_lt hsum
  rw [hcount] at hcap
  have hpre := prefix_sum_le (proj_required env s) l env.L hl
  have hst : pgstromStairlikeSum (proj_required env s) l
      = ((List.range l).map (proj_required env s)).sum := by
    simp only [pgstromStairlikeSum, u32]
    exact Nat.mod_eq_of_lt (by omega)
  refine ⟨?_, hcap⟩
  unfold proj_tup_pos
  rw [hst]
  have h1 : u32 (s.dst_usage + ((List.range l).map (proj_required env s)).sum)
      = s.dst_usage + ((List.range l).map (proj_required env s)).sum :=
    Nat.mod_eq_of_lt (by omega)
  rw [h1]
  have h2 : u32 (s.dst_usage + ((List.range l).map (proj_required env s)).sum
        + proj_required env s l)
      = s.dst_usage + ((List.range l).map (proj_required env s)).sum + proj_required env s l :=
    Nat.mod_eq_of_lt (by omega)
  rw [h2, u32sub_of_le _ _ hlen (by omega)]
  omega

theorem proj_valid_iff (env : Env) (s : State)
    (hr : s.read_pos env.num_rels + env.L ≤ 4294967296) (l : Nat) (hl : l < env.L) :
    proj_valid env s l = true ↔ s.read_pos env.num_rels + l < s.write_pos env.num_rels := by
  have hidx : proj_read_index env s l = s.read_pos env.num_rels + l := by
    unfold proj_read_index u32
    exact Nat.mod_eq_of_lt (by omega)
  simp [proj_valid, hidx]

theorem proj_nvalids_eq (env : Env) (s : State)
    (hbatch : s.read_pos env.num_rels < s.write_pos env.num_rels)
    (hw : s.write_pos env.num_rels < 4294967296) :
    proj_nvalids env s = min (s.write_pos env.num_rels - s.read_pos env.num_rels) env.L := by
  unfold proj_nvalids
  rw [u32sub_of_le _ _ hw (by omega)]

/-- The stores of step 3 when no assertion stops the kernel. -/
theorem proj_step3_dst_tuple (env : Env) (s : State) (h : proj_stops env s = false) :
    (proj_step3 env s).dst_tuple
      = (List.range env.L).foldl
          (fun m l => if proj_writes env s l then
              upd m (proj_tup_pos env s l) (some (proj_comb env s l))
            else m)
          s.dst_tuple := by
  unfold proj_step3
  rw [if_neg (by simp [h])]

theorem proj_step3_dst_rowindex (env : Env) (s : State) (h : proj_stops env s = false) :
    (proj_step3 env s).dst_rowindex
      = (List.range env.L).foldl
          (fun m l => if proj_writes env s l then
              upd m (u32 (s.dst_nitems + l)) (proj_tup_pos env s l)
            else m)
          s.dst_rowindex := by
  unfold proj_step3
  rw [if_neg (by simp [h])]

/-- The layout of step 3 when no assertion stops the kernel.
`gpujoin_projection_row` with a batch, no error in step 1 and the
capacity test passed (length and byte total of the batch in the `cl_uint`
range, STROMALIGN not below its argument, non-empty tuples, cursors and row
count not wrapping): a lane with a combination forms its tuple at
tup_pos = length - (base usage + bytes of the lower-indexed lanes + own bytes)
and stores tup_pos in the row-index entry base row count + lane, which is one
of the nvalids reserved entries; its tuple ends at or below the length and
starts at or above the end of the header and of the row-index array of
base row count + nvalids entries; the tuple of a higher-indexed lane ends at or
below the start of the tuple of a lower-indexed one. -/
theorem projection_tuple_layout (env : Env) (s : State)
    (hstop : proj_stops env s = false)
    (hbatch : s.read_pos env.num_rels < s.write_pos env.num_rels)
    (herr : ∀ l, l < env.L → proj_err1 env s l = 0)
    (hns : proj_nospace env s = false)
    (hlen : env.dst_length < 4294967296)
    (hsum : ((List.range env.L).map (proj_required env s)).sum < 4294967296)
    (halign : ∀ x, x ≤ env.stromalign x)
    (hreq : ∀ l, l < env.L → proj_valid env s l = true → 0 < proj_required env s l)
    (hw : s.write_pos env.num_rels < 4294967296)
    (hr : s.read_pos env.num_rels + env.L ≤ 4294967296)
    (hni : s.dst_nitems + env.L < 4294967296)
    (l : Nat) (hl : l < env.L) (hv : proj_valid env s l = true) :
    proj_tup_pos env s l
        + (s.dst_usage + ((List.range l).map (proj_required env s)).sum + proj_required env s l)
      = env.dst_length
    ∧ (gpujoin_projection_row env s).2.dst_tuple (proj_tup_pos env s l)
        = some (proj_comb env s l)
    ∧ (gpujoin_projection_row env s).2.dst_rowindex (s.dst_nitems + l) = proj_tup_pos env s l
    ∧ l < proj_nvalids env s
    ∧ proj_tup_pos env s l + proj_required env s l ≤ env.dst_length
    ∧ env.dst_head_length + 4 * (s.dst_nitems + proj_nvalids env s) ≤ proj_tup_pos env s l
    ∧ (∀ l', l' < env.L → proj_valid env s l' = true → l < l' →
        proj_tup_pos env s l' + proj_required env s l' ≤ proj_tup_pos env s l) := by
  obtain ⟨hpos, hcap⟩ := proj_tup_pos_eq env s hns hlen hsum l hl
  have hnv := proj_nvalids_le env s
  have hu : u32 (s.dst_nitems + proj_nvalids env s) = s.dst_nitems + proj_nvalids env s :=
    Nat.mod_eq_of_lt (by omega)
  rw [hu] at hcap
  have hal := halign (4 * (s.dst_nitems + proj_nvalids env s))
  have hpre := prefix_sum_le (proj_required env s) l env.L hl
  have hwr : proj_writes env s l = true := by
    simp [proj_writes, hreq l hl hv]
  have hlower : ∀ l', l < l' → l' < env.L → proj_writes env s l' = true →
      proj_tup_pos env s l' + proj_required env s l' ≤ proj_tup_pos env s l
      ∧ proj_tup_pos env s l' ≠ proj_tup_pos env s l := by
    intro l' h1 h2 h3
    have hpos' := (proj_tup_pos_eq env s hns hlen hsum l' h2).1
    have hpre' := prefix_sum_le (proj_required env s) l l' h1
    have hpos3 : 0 < proj_required env s l' := by
      simpa [proj_writes] using h3
    constructor <;> omega
  rw [(projection_row_fits env s hbatch herr hns).1, proj_step3_dst_tuple env s hstop,
    proj_step3_dst_rowindex env s hstop]
  refine ⟨hpos, ?_, ?_, ?_, by omega, by omega, ?_⟩
  · exact fold_upd_get env.L (proj_writes env s) (proj_tup_pos env s)
      (fun l => some (proj_comb env s l)) s.dst_tuple l hl hwr
      (fun l' h1 h2 h3 => (hlower l' h1 h2 h3).2)
  · have hkey : s.dst_nitems + l = u32 (s.dst_nitems + l) :=
      (Nat.mod_eq_of_lt (by omega)).symm
    rw [hkey]
    exact fold_upd_get env.L (proj_writes env s) (fun l => u32 (s.dst_nitems + l))
      (proj_tup_pos env s) s.dst_rowindex l hl hwr
      (fun l' h1 h2 _ => by
        have e1 : u32 (s.dst_nitems + l') = s.dst_nitems + l' := Nat.mod_eq_of_lt (by omega)
        have e2 : u32 (s.dst_nitems + l) = s.dst_nitems + l := Nat.mod_eq_of_lt (by omega)
        show u32 (s.dst_nitems + l') ≠ u32 (s.dst_nitems + l)
        rw [e1, e2]
        omega)
  · rw [proj_nvalids_eq env s hbatch hw]
    have := (proj_valid_iff env s hr l hl).mp hv
    omega
  · intro l' h1 h2 h3
    have hw' : proj_writes env s l' = true := by
      simp [proj_writes, hreq l' h1 h2]
    exact (hlower l' h3 h1 hw').1

/-! ## Assertion of step 3 -/

/-- The mask `~(8 - 1)` of a `size_t` clears the three low bits: the masked
value is zero only below 8. -/
theorem size_t_mask_eq_zero (x : Nat) (hx : x < 18446744073709551616) :
    x &&& size_t_not (8 - 1) = 0 ↔ x < 8 := by
  have hm : size_t_not (8 - 1) = (2 ^ 64 - 1) ^^^ (2 ^ 3 - 1) := by decide
  rw [hm, Nat.and_xor_distrib_left, Nat.and_pow_two_sub_one_eq_mod,
    Nat.and_pow_two_sub_one_eq_mod, Nat.xor_eq_zero, Nat.mod_eq_of_lt (by omega)]
  omega

theorem proj_tup_pos_lt (env : Env) (s : State) (l : Nat) :
    proj_tup_pos env s l < 4294967296 := by
  unfold proj_tup_pos u32sub
  exact Nat.mod_lt _ (by decide)

theorem proj_tup_pos_assert_iff (env : Env) (s : State) (l : Nat)
    (h8 : env.sizeof_Datum = 8) :
    proj_tup_pos_assert env s l = true ↔ proj_tup_pos env s l < 8 := by
  have := proj_tup_pos_lt env s l
  unfold proj_tup_pos_assert
  rw [h8, decide_eq_true_iff, size_t_mask_eq_zero _ (by omega)]

/-- With assertions enabled a lane that writes at an offset of 8 or more stops
the kernel in step 3. -/
theorem proj_stops_of_tup_pos (env : Env) (s : State) (ha : env.assert_enabled = true)
    (h8 : env.sizeof_Datum = 8) (l : Nat) (hl : l < env.L)
    (hw : proj_writes env s l = true) (hpos : 8 ≤ proj_tup_pos env s l) :
    proj_stops env s = true := by
  have hf : proj_tup_pos_assert env s l = false := by
    cases h : proj_tup_pos_assert env s l with
    | false => rfl
    | true =>
      have := (proj_tup_pos_assert_iff env s l h8).mp h
      omega
  unfold proj_stops
  rw [ha, Bool.true_and, List.any_eq_true]
  exact ⟨l, List.mem_range.mpr hl, by simp [hw, hf]⟩

/-- A projection call that reaches step 3 and is stopped there stores no
row-index entry and no tuple. -/
theorem projection_row_stopped (env : Env) (s : State)
    (hbatch : s.read_pos env.num_rels < s.write_pos env.num_rels)
    (herr : ∀ l, l < env.L → proj_err1 env s l = 0)
    (hns : proj_nospace env s = false) (hstop : proj_stops env s = true) :
    (gpujoin_projection_row env s).2.stopped = true
    ∧ (gpujoin_projection_row env s).2.dst_rowindex = s.dst_rowindex
    ∧ (gpujoin_projection_row env s).2.dst_tuple = s.dst_tuple := by
  rw [(projection_row_fits env s hbatch herr hns).1]
  unfold proj_step3
  rw [if_pos hstop]
  exact ⟨rfl, rfl, rfl⟩

/-- With assertions enabled, `sizeof(Datum)` 8 and a header of at least 8
bytes, every projection call that passes the capacity test with a lane that
has a tuple to write is stopped by the assertion on `tup_pos`: nothing is
stored. -/
theorem projection_row_always_stopped (env : Env) (s : State)
    (ha : env.assert_enabled = true) (h8 : env.sizeof_Datum = 8)
    (hhead : 8 ≤ env.dst_head_length)
    (hbatch : s.read_pos env.num_rels < s.write_pos env.num_rels)
    (herr : ∀ l, l < env.L → proj_err1 env s l = 0)
    (hns : proj_nospace env s = false)
    (hlen : env.dst_length < 4294967296)
    (hsum : ((List.range env.L).map (proj_required env s)).sum < 4294967296)
    (l : Nat) (hl : l < env.L) (hw : proj_writes env s l = true) :
    (gpujoin_projection_row env s).2.stopped = true
    ∧ (gpujoin_projection_row env s).2.dst_rowindex = s.dst_rowindex
    ∧ (gpujoin_projection_row env s).2.dst_tuple = s.dst_tuple := by
  obtain ⟨hpos, hcap⟩ := proj_tup_pos_eq env s hns hlen hsum l hl
  have hpre := prefix_sum_le (proj_required env s) l env.L hl
  exact projection_row_stopped env s hbatch herr hns
    (proj_stops_of_tup_pos env s ha h8 l hl hw (by omega))

/-! ## Return values -/

theorem load_source_tail_result (env : Env) (s : State) :
    (load_source_tail env s).1 = -1 ∨ (load_source_tail env s).1 = 0
      ∨ (load_source_tail env s).1 = 1 := by
  unfold load_source_tail
  split
  · split
    · exact Or.inl rfl
    · exact Or.inr (Or.inr rfl)
  · exact Or.inr (Or.inl rfl)

theorem load_source_result (env : Env) (s : State) :
    (gpujoin_load_source env s).1 = -1 ∨ (gpujoin_load_source env s).1 = 0
      ∨ (gpujoin_load_source env s).1 = 1 := by
  unfold gpujoin_load_source
  split
  · split
    · exact Or.inl rfl
    · split
      · exact Or.inr (Or.inr rfl)
      · exact load_source_tail_result env _
  · exact load_source_tail_result env _

/-- The result of `gpujoin_rewind_stack(d, ..)` is a depth from 0 up to `d`
(below `d` when `d` is positive). -/
theorem rewind_result (d : Nat) (s : State) :
    0 ≤ (gpujoin_rewind_stack d s).1 ∧ (gpujoin_rewind_stack d s).1 ≤ (d : Int)
      ∧ (0 < d → (gpujoin_rewind_stack d s).1 < (d : Int)) := by
  induction d generalizing s with
  | zero => exact ⟨le_refl _, le_refl _, fun h => absurd h (by omega)⟩
  | succ d ih =>
    unfold gpujoin_rewind_stack
    split
    · exact ⟨by show (0 : Int) ≤ (d : Int); omega, by show (d : Int) ≤ ((d + 1 : Nat) : Int); omega,
        fun _ => by show (d : Int) < ((d + 1 : Nat) : Int); omega⟩
    · obtain ⟨h1, h2, _⟩ := ih (rewind_reset d s)
      exact ⟨h1, by omega, fun _ => by omega⟩

theorem exec_append_result (env : Env) (d : Nat) (s : State) (res : Nat → Bool)
    (rd : Nat → Nat) (loc : Nat → Nat) :
    (exec_append env d s res rd loc).1 = (d : Int)
      ∨ (exec_append env d s res rd loc).1 = (d : Int) + 1 := by
  unfold exec_append
  simp only
  split
  · exact Or.inl rfl
  · exact Or.inr rfl

theorem exec_drained_result (env : Env) (d : Nat) (s : State) :
    0 ≤ (exec_drained env d s).1 ∧ (exec_drained env d s).1 ≤ (d : Int) + 1 := by
  unfold exec_drained
  split
  · obtain ⟨h1, h2, _⟩ := rewind_result d s
    exact ⟨h1, by omega⟩
  · exact ⟨by show (0 : Int) ≤ (d : Int) + 1; omega, le_refl _⟩

theorem nestloop_result_range (env : Env) (d : Nat) (s : State) (r : Int) (s' : State)
    (h : gpujoin_exec_nestloop env d s = some (r, s')) : 0 ≤ r ∧ r ≤ (d : Int) + 1 := by
  unfold gpujoin_exec_nestloop at h
  simp only at h
  split at h
  · split at h
    · injection h with h
      have := exec_append_result env d
        { s with matched := updAll s.matched d true }
        (fun l => if in_range s d l then s.matched l d else false)
        (fun _ => PSTACK_DEPTH env (d - 1)) (fun _ => 0)
      rw [h] at this
      simp only at this
      omega
    · injection h with h
      have : r = (d : Int) := (congrArg Prod.fst h).symm
      omega
  · split at h
    · exact absurd h (by simp)
    · split at h
      · injection h with h
        have := exec_drained_result env d s
        rw [h] at this
        simpa using this
      · injection h with h
        have := congrArg Prod.fst h
        rcases exec_append_result env d _ _ _ _ with h1 | h1 <;> rw [h1] at this <;>
          simp only at this <;> omega

theorem hashjoin_result_range (env : Env) (d : Nat) (s : State) :
    0 ≤ (gpujoin_exec_hashjoin env d s).1
      ∧ (gpujoin_exec_hashjoin env d s).1 ≤ (d : Int) + 1 := by
  unfold gpujoin_exec_hashjoin
  simp only
  split
  · exact ⟨by show (0 : Int) ≤ (d : Int); omega, by show (d : Int) ≤ (d : Int) + 1; omega⟩
  · split
    · exact exec_drained_result env d s
    · rcases exec_append_result env d _ _ _ _ with h1 | h1 <;> rw [h1] <;> omega

theorem projection_result (env : Env) (s : State) (hN : 1 ≤ env.num_rels) :
    (gpujoin_projection_row env s).1 = -1
      ∨ (gpujoin_projection_row env s).1 = (env.num_rels : Int)
      ∨ (0 ≤ (gpujoin_projection_row env s).1
          ∧ (gpujoin_projection_row env s).1 < (env.num_rels : Int)) := by
  unfold gpujoin_projection_row
  split
  · obtain ⟨k, h1, h2, _⟩ := rewind_spec env.num_rels s hN
    rw [h1]
    exact Or.inr (Or.inr ⟨by omega, by omega⟩)
  · split
    · exact Or.inl rfl
    · split
      · exact Or.inl rfl
      · split
        · exact Or.inl rfl
        · exact Or.inr (Or.inl rfl)

/-! ## Depth of the traversal loop -/

theorem dispatch_load_source (env : Env) (s : State) :
    gpujoin_dispatch env 0 s = some (gpujoin_load_source env s) := by
  simp [gpujoin_dispatch]

theorem dispatch_projection (env : Env) (d : Nat) (s : State) (hd : env.num_rels < d) :
    gpujoin_dispatch env d s = some (gpujoin_projection_row env s) := by
  have h0 : d ≠ 0 := by omega
  simp [gpujoin_dispatch, h0, hd]

theorem dispatch_nestloop (env : Env) (d : Nat) (s : State) (h1 : 1 ≤ d)
    (h2 : d ≤ env.num_rels) (hk : (env.chunks (d - 1)).is_nestloop = true) :
    gpujoin_dispatch env d s = gpujoin_exec_nestloop env d s := by
  have h0 : d ≠ 0 := by omega
  have hN : ¬ d > env.num_rels := by omega
  simp [gpujoin_dispatch, h0, hN, hk]

theorem dispatch_hashjoin (env : Env) (d : Nat) (s : State) (h1 : 1 ≤ d)
    (h2 : d ≤ env.num_rels) (hk : (env.chunks (d - 1)).is_nestloop = false) :
    gpujoin_dispatch env d s = some (gpujoin_exec_hashjoin env d s) := by
  have h0 : d ≠ 0 := by omega
  have hN : ¬ d > env.num_rels := by omega
  simp [gpujoin_dispatch, h0, hN, hk]

/-- One iteration keeps the depth within -1 .. N+1. -/
theorem dispatch_depth_range (env : Env) (hN : 1 ≤ env.num_rels) (d : Nat) (s : State)
    (q : Int × State) (hd : d ≤ env.num_rels + 1)
    (hq : gpujoin_dispatch env d s = some q) :
    -1 ≤ q.1 ∧ q.1 ≤ (env.num_rels : Int) + 1 := by
  by_cases h0 : d = 0
  · subst h0
    rw [dispatch_load_source] at hq
    injection hq with hq
    rcases load_source_result env s with h | h | h <;> rw [hq] at h <;> omega
  · by_cases hp : env.num_rels < d
    · rw [dispatch_projection env d s hp] at hq
      injection hq with hq
      rcases projection_result env s hN with h | h | h <;> rw [hq] at h <;> omega
    · cases hk : (env.chunks (d - 1)).is_nestloop with
      | true =>
        rw [dispatch_nestloop env d s (by omega) (by omega) hk] at hq
        have := nestloop_result_range env d s q.1 q.2 hq
        omega
      | false =>
        rw [dispatch_hashjoin env d s (by omega) (by omega) hk] at hq
        injection hq with hq
        have := hashjoin_result_range env d s
        rw [hq] at this
        omega

/-- The depth at the head of every iteration is within -1 .. N+1. -/
theorem run_depth_range (env : Env) (hN : 1 ≤ env.num_rels) (n : Nat) (p : Int × State)
    (hp : -1 ≤ p.1 ∧ p.1 ≤ (env.num_rels : Int) + 1) :
    -1 ≤ (run_dispatch env n p).1 ∧ (run_dispatch env n p).1 ≤ (env.num_rels : Int) + 1 := by
  induction n generalizing p with
  | zero => exact hp
  | succ n ih =>
    unfold run_dispatch
    split
    · exact hp
    · rename_i hneg
      split
      · exact hp
      · split
        · exact hp
        · rename_i q hq
          exact ih q (dispatch_depth_range env hN p.1.toNat p.2 q (by omega) hq)

/-! ## Pseudo-stack layout -/

theorem tri_succ (d : Nat) : (d + 1) * (d + 2) / 2 = d * (d + 1) / 2 + (d + 1) := by
  have h : (d + 1) * (d + 2) = d * (d + 1) + 2 * (d + 1) := by ring
  rw [h, Nat.add_mul_div_left _ _ (by decide : 0 < 2)]

theorem tri_mono (d e : Nat) (h : d ≤ e) : d * (d + 1) / 2 ≤ e * (e + 1) / 2 :=
  Nat.div_le_div_right (Nat.mul_le_mul h (by omega))

theorem tri_double (d : Nat) : 2 * (d * (d + 1) / 2) = d * (d + 1) :=
  Nat.mul_div_cancel' (Nat.even_mul_succ_self d).two_dvd

/-- Without wrap-around `PSTACK_DEPTH(d)` is `pstack_nrooms` times the
triangular number of `d`. -/
theorem PSTACK_DEPTH_eq (env : Env) (d : Nat)
    (h : env.pstack_nrooms * (d * (d + 1)) < 4294967296) :
    PSTACK_DEPTH env d = env.pstack_nrooms * (d * (d + 1) / 2) := by
  unfold PSTACK_DEPTH
  rw [u32_of_lt _ h, Nat.mul_div_assoc _ (Nat.even_mul_succ_self d).two_dvd]

theorem PSTACK_DEPTH_succ (env : Env) (d : Nat)
    (h : env.pstack_nrooms * ((d + 1) * (d + 2)) < 4294967296) :
    PSTACK_DEPTH env d + env.pstack_nrooms * (d + 1) = PSTACK_DEPTH env (d + 1) := by
  have h0 : env.pstack_nrooms * (d * (d + 1)) ≤ env.pstack_nrooms * ((d + 1) * (d + 2)) :=
    Nat.mul_le_mul_left _ (Nat.mul_le_mul (by omega) (by omega))
  rw [PSTACK_DEPTH_eq env d (by omega), PSTACK_DEPTH_eq env (d + 1) h, tri_succ d]
  exact (Nat.mul_add _ _ _).symm

/-- Every word below `n * T(M+1)` lies in the band of one `d <= M`. -/
theorem tri_cover (n a M : Nat) (h : a < n * ((M + 1) * (M + 2) / 2)) :
    ∃ d, d ≤ M ∧ n * (d * (d + 1) / 2) ≤ a ∧ a < n * ((d + 1) * (d + 2) / 2) := by
  induction M with
  | zero => exact ⟨0, le_refl _, by simp, h⟩
  | succ M ih =>
    by_cases hlt : a < n * ((M + 1) * (M + 2) / 2)
    · obtain ⟨d, hd, h1, h2⟩ := ih hlt
      exact ⟨d, by omega, h1, h2⟩
    · exact ⟨M + 1, le_refl _, Nat.le_of_not_lt hlt, h⟩

theorem pstack_base_eq (M n g : Nat) (h : g * n * ((M + 1) * (M + 2)) < 4294967296) :
    pstack_base M n g = g * (n * ((M + 1) * (M + 2) / 2)) := by
  unfold pstack_base
  have hpos : 0 < (M + 1) * (M + 2) := Nat.mul_pos (by omega) (by omega)
  have hle : g * n ≤ g * n * ((M + 1) * (M + 2)) := Nat.le_mul_of_pos_right _ hpos
  rw [u32_of_lt (g * n) (by omega), u32_of_lt _ h,
    Nat.mul_div_assoc _ (Nat.even_mul_succ_self (M + 1)).two_dvd, Nat.mul_assoc]

theorem tri_assoc (n d : Nat) : n * d * (d + 1) / 2 = n * (d * (d + 1) / 2) := by
  rw [Nat.mul_assoc, Nat.mul_div_assoc _ (Nat.even_mul_succ_self d).two_dvd]

theorem tri_assoc_succ (n M : Nat) :
    n * (M + 1) * (M + 2) / 2 = n * ((M + 1) * (M + 2) / 2) :=
  tri_assoc n (M + 1)

theorem tri_bound (n d M : Nat) (hd : d ≤ M + 1) :
    n * (d * (d + 1)) ≤ n * ((M + 1) * (M + 2)) :=
  Nat.mul_le_mul_left _ (Nat.mul_le_mul hd (by omega))

theorem tri_bound_succ (n d M : Nat) (hd : d ≤ M) :
    n * ((d + 1) * (d + 2)) ≤ n * ((M + 1) * (M + 2)) :=
  Nat.mul_le_mul_left _ (Nat.mul_le_mul (by omega) (by omega))

theorem tri_mono_succ_succ (d M : Nat) (h : d ≤ M) :
    (d + 1) * (d + 2) / 2 ≤ (M + 1) * (M + 2) / 2 :=
  tri_mono (d + 1) (M + 1) (by omega)

theorem PSTACK_DEPTH_eq_succ (env : Env) (d : Nat)
    (h : env.pstack_nrooms * ((d + 1) * (d + 2)) < 4294967296) :
    PSTACK_DEPTH env (d + 1) = env.pstack_nrooms * ((d + 1) * (d + 2) / 2) :=
  PSTACK_DEPTH_eq env (d + 1) h

theorem tri_mono_succ (d e : Nat) (h : d < e) :
    (d + 1) * (d + 2) / 2 ≤ e * (e + 1) / 2 :=
  tri_mono (d + 1) e h

/-- Without wrap-around the region of depth `d` is the band of words from
`n * T(d)` up to `n * T(d+1)`, `T` the triangular numbers. -/
theorem in_pstack_region_iff (env : Env) (M d a : Nat)
    (hM : env.pstack_nrooms * ((M + 1) * (M + 2)) < 4294967296) (hd : d ≤ M) :
    in_pstack_region env d a
      ↔ env.pstack_nrooms * (d * (d + 1) / 2) ≤ a
        ∧ a < env.pstack_nrooms * ((d + 1) * (d + 2) / 2) := by
  have h1 := tri_bound env.pstack_nrooms d M (by omega)
  have h2 := tri_bound_succ env.pstack_nrooms d M hd
  have hs := PSTACK_DEPTH_succ env d (by omega)
  have he := PSTACK_DEPTH_eq_succ env d (by omega)
  unfold in_pstack_region
  rw [hs, he, PSTACK_DEPTH_eq env d (by omega)]

theorem pstack_entry_eq (env : Env) (M d i : Nat)
    (hM : env.pstack_nrooms * ((M + 1) * (M + 2)) < 4294967296) (hd : d ≤ M)
    (hi : i ≤ env.pstack_nrooms) :
    pstack_entry env d i = env.pstack_nrooms * (d * (d + 1) / 2) + i * (d + 1) := by
  have h1 := tri_bound env.pstack_nrooms d M (by omega)
  have h2 : i * (d + 1) ≤ env.pstack_nrooms * (d + 1) := Nat.mul_le_mul_right _ hi
  have h3 : env.pstack_nrooms * (d + 1) ≤ env.pstack_nrooms * ((M + 1) * (M + 2)) :=
    Nat.mul_le_mul_left _ (by nlinarith)
  unfold pstack_entry
  rw [u32_of_lt _ (by omega), PSTACK_DEPTH_eq env d (by omega)]

/-- Bands of distinct depths do not meet. -/
theorem tri_band_disjoint (n d e a : Nat) (hde : d < e)
    (h1 : a < n * ((d + 1) * (d + 2) / 2)) : ¬ n * (e * (e + 1) / 2) ≤ a := by
  have := Nat.mul_le_mul_left n (tri_mono_succ d e hde)
  omega

/-! ## Claims -/

/-- C1 (evaluated at a failing input). Two lanes, 100 rooms, one outer row and
one nested-loop inner row that match, a roomy destination, no error: the
reference join holds the combination [100, 200], yet the traversal loop exits
after five iterations without having handed any combination to the projection
and with an empty destination. -/
theorem C1_join_result_never_projected :
    reference_join demo_env = [[100, 200]]
    ∧ demo_env.L ≤ demo_env.pstack_nrooms
    ∧ (gpujoin_main_loop demo_env 5 0 (demo_init demo_env)).map
        (fun s => (s.proj_calls, s.dst_nitems, s.errcode 0, s.errcode 1))
      = some ([], 0, 0, 0) := by
  decide

/-- C2 (evaluated at a failing input). Left-outer nested loop at depth 1 whose
scan cursor has reached the end of the inner relation; both lanes are in
range, lane 0 (outer row 100) matched, lane 1 (outer row 108) did not. The
call appends one entry with inner locator 0, and it is for the matched row
100; nothing is appended for the unmatched row 108. -/
theorem C2_left_outer_emits_for_matched_lane :
    (left_outer_env.chunks 0).left_outer = true
    ∧ (demo_state left_outer_env 2).l_state 0 1 = (left_outer_env.inner 1).nitems
    ∧ (demo_state left_outer_env 2).l_state 1 1 = (left_outer_env.inner 1).nitems
    ∧ in_range (demo_state left_outer_env 2) 1 0 = true
    ∧ in_range (demo_state left_outer_env 2) 1 1 = true
    ∧ outer_comb left_outer_env (demo_state left_outer_env 2) 1 0 = [100]
    ∧ outer_comb left_outer_env (demo_state left_outer_env 2) 1 1 = [108]
    ∧ (demo_state left_outer_env 2).matched 0 1 = true
    ∧ (demo_state left_outer_env 2).matched 1 1 = false
    ∧ (demo_state left_outer_env 2).write_pos 1 = 1
    ∧ (gpujoin_exec_nestloop left_outer_env 1 (demo_state left_outer_env 2)).map
        (fun r => (r.1, r.2.write_pos 1, r.2.read_pos 0,
          readWords r.2.pstack (PSTACK_DEPTH left_outer_env 1 + 2) 2))
      = some (1, 2, 0, [100, 0]) := by
  decide

/-- C3 (evaluated at failing inputs). Hash join at depth 1 of two relations,
lane 0 in range with a probe that finds no item, lane 1 out of range. With
relation 1 left-outer and relation 2 not, a pass appends nothing; with
relation 1 not left-outer and relation 2 left-outer, a pass appends two
unmatched entries (one of them for the out-of-range lane) and the next pass
appends two more. -/
theorem C3_hashjoin_reads_next_left_outer_flag :
    in_range (demo_state (hash_pair_env true false) 1) 1 0 = true
    ∧ in_range (demo_state (hash_pair_env true false) 1) 1 1 = false
    ∧ (hash_khitem (hash_pair_env true false) 1
        (demo_state (hash_pair_env true false) 1) 0).isEmpty = true
    ∧ KERN_MULTIRELS_LEFT_OUTER_JOIN (hash_pair_env true false) 1 = true
    ∧ (gpujoin_exec_hashjoin (hash_pair_env true false) 1
        (demo_state (hash_pair_env true false) 1)).2.write_pos 1 = 0
    ∧ KERN_MULTIRELS_LEFT_OUTER_JOIN (hash_pair_env false true) 1 = false
    ∧ (gpujoin_exec_hashjoin (hash_pair_env false true) 1
        (demo_state (hash_pair_env false true) 1)).2.write_pos 1 = 2
    ∧ (gpujoin_exec_hashjoin (hash_pair_env false true) 1
        (gpujoin_exec_hashjoin (hash_pair_env false true) 1
          (demo_state (hash_pair_env false true) 1)).2).2.write_pos 1 = 4 := by
  decide

/-- C4 (evaluated at a failing input). On the input of C1 the loop visits the
depths 0, 1, 1, 1, 0 and exits with depth -1 and no error, while depth 1 still
holds the combination [100, 200] appended but never read
(read_pos[1] = 0 < write_pos[1] = 1): the last `gpujoin_load_source` call
returned -1 although depth 1 had a pending combination. -/
theorem C4_exit_with_pending_combination :
    (gpujoin_main_trace demo_env 5 0 (demo_init demo_env)).map (view demo_env)
      = [(0, [0, 0, 0, 0], [0, 0, 0, 0]), (1, [0, 1, 0, 0], [0, 0, 0, 0]),
         (1, [0, 1, 0, 1], [100, 200, 0, 0]), (1, [2, 1, 0, 1], [100, 200, 0, 0]),
         (0, [0, 0, 0, 1], [100, 200, 0, 0]), (-1, [0, 0, 0, 1], [100, 200, 0, 0])]
    ∧ (gpujoin_load_source demo_env (demo_state demo_env 4)).1 = -1
    ∧ (demo_state demo_env 4).read_pos 1 < (demo_state demo_env 4).write_pos 1
    ∧ (gpujoin_main_loop demo_env 5 0 (demo_init demo_env)).map
        (fun s => (s.errcode 0, s.errcode 1, s.read_pos 1, s.write_pos 1))
      = some (0, 0, 0, 1) := by
  decide

/-- C5. `gpujoin_projection_row` with a batch to project and no error raised by
a callback (none pending after `gpujoin_projection`, none from
`form_kern_heaptuple`): the call returns -1 exactly when
head length + STROMALIGN(4 * (base row count + nvalids)) + base usage + count
exceeds `kds_dst->length` (row count and byte count as the `cl_uint` the code
holds); in that case every lane carries `StromError_DataStoreNoSpace` and the
row-index array and the tuple bodies of the destination are unchanged. -/
theorem C5_projection_out_of_space (env : Env) (s : State) (hL : 0 < env.L)
    (hbatch : s.read_pos env.num_rels < s.write_pos env.num_rels)
    (herr : ∀ l, l < env.L → proj_err1 env s l = 0)
    (hform : ∀ l, l < env.L → env.form_kern_heaptuple (proj_comb env s l) = 0) :
    ((gpujoin_projection_row env s).1 = -1
      ↔ env.dst_head_length + env.stromalign (4 * u32 (s.dst_nitems + proj_nvalids env s))
          + s.dst_usage + proj_count env s > env.dst_length)
    ∧ (env.dst_head_length + env.stromalign (4 * u32 (s.dst_nitems + proj_nvalids env s))
          + s.dst_usage + proj_count env s > env.dst_length →
        (∀ l, l < env.L →
          (gpujoin_projection_row env s).2.errcode l = StromError_DataStoreNoSpace)
        ∧ (gpujoin_projection_row env s).2.dst_rowindex = s.dst_rowindex
        ∧ (gpujoin_projection_row env s).2.dst_tuple = s.dst_tuple) := by
  by_cases hns : proj_nospace env s = true
  · have hex := hns
    simp only [proj_nospace, decide_eq_true_eq] at hex
    obtain ⟨h1, h2⟩ := projection_row_nospace env s hL hbatch herr hns
    refine ⟨⟨fun _ => hex, fun _ => by rw [h1]⟩, fun _ => ?_⟩
    rw [h1]
    exact ⟨h2, rfl, rfl⟩
  · have hns' : proj_nospace env s = false := by simpa using hns
    have hex := hns'
    simp only [proj_nospace, decide_eq_false_iff_not] at hex
    obtain ⟨_, h2⟩ := projection_row_fits env s hbatch herr hns'
    refine ⟨⟨fun h => ?_, fun h => absurd h hex⟩, fun h => absurd h hex⟩
    rw [h2 hform] at h
    omega

/-- Witness of C5: the second projection call on the destination that holds
two tuples. -/
theorem C5_projection_out_of_space_witness :
    (gpujoin_projection_row tight_dst_env (demo_state tight_dst_env 7)).1 = -1
    ∧ (gpujoin_projection_row tight_dst_env (demo_state tight_dst_env 7)).2.dst_rowindex
        = (demo_state tight_dst_env 7).dst_rowindex :=
  have h := C5_projection_out_of_space tight_dst_env (demo_state tight_dst_env 7)
    (by decide) (by decide) (by decide) (by decide)
  ⟨h.1.mpr (by decide), (h.2 (by decide)).2.1⟩

/-- C7 (counterexample). On the input of C1, after the source loader and two
nested-loop calls (no write cursor anywhere near the `cl_uint` range), the
read cursor of depth 0 is 2 and its write cursor is 1: the nested loop
advanced `read_pos[0]` by the group size although one combination was
buffered. -/
theorem C7_read_cursor_passes_write_cursor :
    Reach demo_env (no_wrap demo_env) (demo_state demo_env 3)
    ∧ (demo_state demo_env 3).read_pos 0 = 2
    ∧ (demo_state demo_env 3).write_pos 0 = 1
    ∧ ¬ ((demo_state demo_env 3).read_pos 0 ≤ (demo_state demo_env 3).write_pos 0) :=
  ⟨reach_run demo_env (no_wrap demo_env) 3 (0, demo_init demo_env) (Reach.init 0 _ _)
    (by decide), by decide, by decide, by decide⟩

/-- C7 (amended). With a non-empty group and non-empty nested-loop inner
relations, in every state reached from the initial all-zero cursors by handler
calls (source loader, executor of its kind at a depth 1..N, projection,
rewind) made while no write cursor of the depths 0..N is within one batch of
the `cl_uint` range, read_pos[d] < write_pos[d] + get_local_size() for every
depth d in 0..N: a read cursor passes the write cursor by less than one batch
width. -/
theorem C7_read_cursor_amended (env : Env) (hL : 0 < env.L)
    (hrows : ∀ d, 1 ≤ d → d ≤ env.num_rels → (env.chunks (d - 1)).is_nestloop = true →
      0 < (env.inner d).nitems)
    (s : State) (h : Reach env (no_wrap env) s) (d : Nat) (hd : d ≤ env.num_rels) :
    s.read_pos d < s.write_pos d + env.L :=
  (reach_inv env hL hrows s h).near d hd

/-- Witness of C7 (amended): the state of the counterexample, depth 0. -/
theorem C7_read_cursor_amended_witness :
    (demo_state demo_env 3).read_pos 0 < (demo_state demo_env 3).write_pos 0 + demo_env.L :=
  C7_read_cursor_amended demo_env (by decide)
    (fun d h1 h2 _ => by
      have hd : d = 1 := by
        have : demo_env.num_rels = 1 := rfl
        omega
      subst hd
      decide)
    (demo_state demo_env 3)
    (reach_run demo_env (no_wrap demo_env) 3 (0, demo_init demo_env) (Reach.init 0 _ _)
      (by decide))
    0 (by decide)

/-- C8. After `gpujoin_colocate_outer_join_map` with device count `D` (below
`UINT_MAX`, the loop counter being a `cl_uint`), for every word index `g`
below `ojmaps_length / 4` that a thread of the grid covers, word `g` of slot
`cuda_dindex` is the bitwise OR of word `g` of the slots 0..D as they were
before the pass: a bit of it is clear exactly when it was clear in every
slot. -/
theorem C8_colocate_merges_slots (ojmaps_length cuda_dindex D nthreads : Nat)
    (mem : Nat → Nat) (g : Nat)
    (hg : g < ojmaps_length / 4) (hthread : g < nthreads) (_hD : D < UINT_MAX) :
    gpujoin_colocate_outer_join_map ojmaps_length cuda_dindex D nthreads mem
        (cuda_dindex * (ojmaps_length / 4) + g)
      = (List.range (D + 1)).foldl
          (fun map i => map ||| mem (g + i * (ojmaps_length / 4))) 0
    ∧ ∀ b, ((gpujoin_colocate_outer_join_map ojmaps_length cuda_dindex D nthreads mem
              (cuda_dindex * (ojmaps_length / 4) + g)).testBit b = false
            ↔ ∀ i, i ≤ D → (mem (g + i * (ojmaps_length / 4))).testBit b = false) := by
  have h := colocate_merged ojmaps_length cuda_dindex D nthreads mem g hg hthread
  refine ⟨h, fun b => ?_⟩
  rw [h]
  have ht := colocate_or_testBit (ojmaps_length / 4) D g mem b
  constructor
  · intro hf i hi
    by_contra hc
    have hc' : (mem (g + i * (ojmaps_length / 4))).testBit b = true := by simpa using hc
    have := ht.mpr ⟨i, hi, hc'⟩
    rw [hf] at this
    exact Bool.noConfusion this
  · intro hall
    by_contra hc
    have hc' : (colocate_or (ojmaps_length / 4) D g mem).testBit b = true := by simpa using hc
    obtain ⟨i, hi, hb⟩ := ht.mp hc'
    rw [hall i hi] at hb
    exact Bool.noConfusion hb

/-- Witness of C8: two devices' worth of slots (D = 1), four words per slot,
merged into slot 0. -/
theorem C8_colocate_merges_slots_witness :
    gpujoin_colocate_outer_join_map 16 0 1 4 demo_ojmaps (0 * (16 / 4) + 0)
      = (List.range (1 + 1)).foldl (fun map i => map ||| demo_ojmaps (0 + i * (16 / 4))) 0
    ∧ gpujoin_colocate_outer_join_map 16 0 1 4 demo_ojmaps 0 = 7 :=
  ⟨(C8_colocate_merges_slots 16 0 1 4 demo_ojmaps 0 (by decide) (by decide) (by decide)).1,
   by decide⟩

/-- C9. Nested loop: whenever the call returns (it does when the lanes agree
on the scan cursor), a lane in range whose predicate accepts the inner row
`l_state[d]` it scans has entry `l_state[d]` of the map of relation `d` set
afterwards when the relation is right-outer. Hash join: a lane whose
predicate evaluation on the chain entry `khitem` came back with
`joinquals_matched` has entry `khitem->rowid` set afterwards. Neither executor
clears an entry, and without a map (relation not right-outer) the map memory
is unchanged. -/
theorem C9_outer_join_map_marking (env : Env) (d : Nat) (s : State) :
    ((∀ l, l < env.L → s.l_state l d = s.l_state 0 d) →
        (gpujoin_exec_nestloop env d s).isSome = true)
    ∧ (∀ r s', gpujoin_exec_nestloop env d s = some (r, s') →
        (∀ lane base, lane < env.L →
          s.read_pos (d - 1) < s.write_pos (d - 1) →
          s.l_state lane d < (env.inner d).nitems →
          in_range s d lane = true →
          (nestloop_quals env d s lane).result = true →
          KERN_MULTIRELS_OUTER_JOIN_MAP env d = some base →
          s'.ojmap (base + s.l_state lane d) = true)
        ∧ (∀ a, s.ojmap a = true → s'.ojmap a = true)
        ∧ (KERN_MULTIRELS_OUTER_JOIN_MAP env d = none → s'.ojmap = s.ojmap))
    ∧ (∀ lane base it rest, lane < env.L →
          syncthreads_or env.L (fun l => decide (s.l_state l d ≠ UINT_MAX)) = true →
          s.read_pos (d - 1) < s.write_pos (d - 1) →
          hash_khitem env d s lane = it :: rest →
          (env.gpujoin_join_quals d (outer_comb env s d lane) it.htup_off).joinquals_matched
            = true →
          KERN_MULTIRELS_OUTER_JOIN_MAP env d = some base →
          (gpujoin_exec_hashjoin env d s).2.ojmap (base + it.rowid) = true)
    ∧ (∀ a, s.ojmap a = true → (gpujoin_exec_hashjoin env d s).2.ojmap a = true)
    ∧ (KERN_MULTIRELS_OUTER_JOIN_MAP env d = none →
        (gpujoin_exec_hashjoin env d s).2.ojmap = s.ojmap) := by
  refine ⟨nestloop_defined env d s, ?_, ?_, ?_, ?_⟩
  · intro r s' h
    refine ⟨?_, ?_, ?_⟩
    · intro lane base hl hread hscan hin hres hmap
      rw [nestloop_scan_ojmap env d s r s' h lane hl hscan hread, hmap]
      exact ojmap_mark_set env.L base _ s.ojmap lane (s.l_state lane d) hl
        (by simp [nestloop_result, hin, hres])
    · intro a ha
      rcases nestloop_ojmap env d s r s' h with h1 | ⟨_, _, h1⟩
      · rw [h1]; exact ha
      · rw [h1]; exact ojmap_mark_mono _ _ _ _ a ha
    · intro hnone
      rcases nestloop_ojmap env d s r s' h with h1 | ⟨_, _, h1⟩
      · exact h1
      · rw [h1, hnone]; rfl
  · intro lane base it rest hl hor hread hk hq hmap
    rw [hashjoin_probe_ojmap env d s hor hread, hmap]
    exact ojmap_mark_set env.L base _ s.ojmap lane it.rowid hl
      (by simp [hashjoin_mark, hk, hq])
  · intro a ha
    rcases hashjoin_ojmap env d s with h1 | ⟨_, _, h1⟩
    · rw [h1]; exact ha
    · rw [h1]; exact ojmap_mark_mono _ _ _ _ a ha
  · intro hnone
    rcases hashjoin_ojmap env d s with h1 | ⟨_, _, h1⟩
    · exact h1
    · rw [h1, hnone]; rfl

/-- Witness of C9: the first scanning pass over a right-outer nested-loop
relation and the first probing pass over a right-outer hash table, lane 0
matching inner row 0: entry 0 of the map at byte 1000 is set. -/
theorem C9_outer_join_map_marking_witness :
    (gpujoin_exec_nestloop right_outer_env 1 (demo_state right_outer_env 1)).isSome = true
    ∧ (∀ r s', gpujoin_exec_nestloop right_outer_env 1 (demo_state right_outer_env 1)
          = some (r, s') →
        s'.ojmap (1000 + (demo_state right_outer_env 1).l_state 0 1) = true)
    ∧ (gpujoin_exec_hashjoin right_outer_hash_env 1
        (demo_state right_outer_hash_env 1)).2.ojmap (1000 + 0) = true :=
  have h := C9_outer_join_map_marking right_outer_env 1 (demo_state right_outer_env 1)
  have k := C9_outer_join_map_marking right_outer_hash_env 1
    (demo_state right_outer_hash_env 1)
  ⟨h.1 (by decide),
   fun r s' e => (h.2.1 r s' e).1 0 1000 (by decide) (by decide) (by decide) (by decide)
     (by decide) (by decide),
   k.2.2.1 0 1000 { hash := 5, rowid := 0, t_off := 192, htup_off := 200 } []
     (by decide) (by decide) (by decide) (by rfl) (by decide) (by decide)⟩

/-- C10 (evaluated at failing inputs). A nested-loop pass in which
`gpujoin_join_quals` raises error 7 in lane 0 returns depth 1, not a negative
depth, and the next pass appends a second combination; a hash-join pass in
which the callback raises error 7 returns depth 1 as well and the next pass
appends again. -/
theorem C10_executors_ignore_errors :
    (gpujoin_exec_nestloop failing_quals_env 1 (demo_state failing_quals_env 1)).map
        (fun r => (r.1, r.2.errcode 0, r.2.write_pos 1)) = some (1, 7, 1)
    ∧ (demo_state failing_quals_env 2).errcode 0 = 7
    ∧ (gpujoin_exec_nestloop failing_quals_env 1 (demo_state failing_quals_env 2)).map
        (fun r => (r.1, r.2.errcode 0, r.2.write_pos 1,
          readWords r.2.pstack (PSTACK_DEPTH failing_quals_env 1) 4))
      = some (1, 7, 2, [100, 200, 100, 208])
    ∧ ((gpujoin_exec_hashjoin failing_hash_env 1 (demo_state failing_hash_env 1)).1,
        (gpujoin_exec_hashjoin failing_hash_env 1 (demo_state failing_hash_env 1)).2.errcode 0,
        (gpujoin_exec_hashjoin failing_hash_env 1 (demo_state failing_hash_env 1)).2.write_pos 1)
      = (1, 7, 1)
    ∧ (gpujoin_exec_hashjoin failing_hash_env 1 (demo_state failing_hash_env 2)).2.write_pos 1
      = 2 := by
  decide

/-- C11 (evaluated at a failing input). One outer row whose key equals the key
of both rows of the inner relation. The nested loop finishes the batch in
three calls (read_pos[0] becomes 2) having appended [100, 200] and
[100, 208]. The hash join appends [100, 200] in each of its first three
passes, not [100, 208], and however many passes are made the batch is not
finished (read_pos[0] stays 0). -/
theorem C11_hash_join_differs_from_nested_loop :
    (view (equiv_env true) (run_dispatch (equiv_env true) 4 (0, demo_init (equiv_env true)))
      = (1, [2, 1, 0, 2], [100, 200, 100, 208]))
    ∧ (hashjoin_passes (equiv_env false) 1 3 (demo_state (equiv_env false) 1)).write_pos 1 = 3
    ∧ readWords (hashjoin_passes (equiv_env false) 1 3 (demo_state (equiv_env false) 1)).pstack
        (PSTACK_DEPTH (equiv_env false) 1) 6 = [100, 200, 100, 200, 100, 200]
    ∧ ∀ n, (hashjoin_passes (equiv_env false) 1 n (demo_state (equiv_env false) 1)).read_pos 0
        = 0 := by
  refine ⟨by decide, by decide, by decide, fun n => ?_⟩
  have h := (hashjoin_passes_never_advance (equiv_env false) 1 (by decide) n
    (demo_state (equiv_env false) 1) (by decide)).2 0
  have h0 : (demo_state (equiv_env false) 1).read_pos 0 = 0 := by decide
  omega

/-- C12 (evaluated at a failing input). Two lanes, three rooms, two outer rows.
The first `gpujoin_load_source` call stores both rows at depth 0 and returns 1
(dive) with the shared read position still 0; when the loop comes back to
depth 0 the read position is still 0 and the call stores the same two rows
again, so that each of the two joined combinations is handed to the
projection twice. -/
theorem C12_dive_keeps_read_position :
    (demo_init dive_env).src_read_pos = 0
    ∧ (gpujoin_load_source dive_env (demo_init dive_env)).1 = 1
    ∧ (gpujoin_load_source dive_env (demo_init dive_env)).2.src_read_pos = 0
    ∧ (gpujoin_load_source dive_env (demo_init dive_env)).2.write_pos 0 = 2
    ∧ readWords (gpujoin_load_source dive_env (demo_init dive_env)).2.pstack 0 2 = [100, 108]
    ∧ (run_dispatch dive_env 6 (0, demo_init dive_env)).1 = 0
    ∧ (demo_state dive_env 6).src_read_pos = 0
    ∧ (demo_state dive_env 6).write_pos 0 = 0
    ∧ (gpujoin_load_source dive_env (demo_state dive_env 6)).2.write_pos 0 = 2
    ∧ readWords (gpujoin_load_source dive_env (demo_state dive_env 6)).2.pstack 0 2 = [100, 108]
    ∧ (demo_state dive_env 9).proj_calls = [[100, 200], [108, 200], [100, 200], [108, 200]]
    ∧ reference_join dive_env = [[100, 200], [108, 200]] := by
  decide!

/-- C13. A `gpujoin_load_source` call in which at least one lane fetched a row
and no lane carries an error, with `write_pos[0]` at least a batch width below
the end of the `cl_uint` range: `write_pos[0]` grows by the number k of lanes
that pass the filter; the slot of a surviving lane is the old write cursor plus
the number of lower-indexed surviving lanes and holds its row offset; read in
order, the k new slots hold the row offsets of the surviving lanes in
increasing lane order; every slot below the old write cursor is unchanged. -/
theorem C13_load_source_compaction (env : Env) (s : State)
    (hfetch : 0 < syncthreads_count env.L (fun l => (load_fetch env s l).isSome))
    (hnoerr : ∀ l, l < env.L → load_errcode env s l = 0)
    (hw : s.write_pos 0 + env.L < 4294967296) :
    (gpujoin_load_source env s).2.write_pos 0
        = s.write_pos 0 + syncthreads_count env.L (load_visible env s)
    ∧ (∀ l, l < env.L → load_visible env s l = true →
        (gpujoin_load_source env s).2.pstack
            (PSTACK_DEPTH env 0 + (s.write_pos 0
              + pgstromStairlikeBinaryCount (load_visible env s) l))
          = load_t_offset env s l)
    ∧ readWords (gpujoin_load_source env s).2.pstack (PSTACK_DEPTH env 0 + s.write_pos 0)
          (syncthreads_count env.L (load_visible env s))
        = ((List.range env.L).filter (fun l => load_visible env s l)).map (load_t_offset env s)
    ∧ (∀ a, a < s.write_pos 0 →
        (gpujoin_load_source env s).2.pstack (PSTACK_DEPTH env 0 + a)
          = s.pstack (PSTACK_DEPTH env 0 + a)) := by
  obtain ⟨h1, h2⟩ := load_source_stored env s hfetch hnoerr
  have hL : syncthreads_count env.L (load_visible env s) ≤ env.L := by
    have := List.countP_le_length (load_visible env s) (l := List.range env.L)
    simpa [syncthreads_count] using this
  rw [h1, h2, load_store_pstack env s hw, PSTACK_DEPTH_zero]
  simp only [Nat.zero_add]
  refine ⟨?_, ?_, ?_, ?_⟩
  · simp only [load_store, upd, if_true, u32]
    exact Nat.mod_eq_of_lt (by omega)
  · intro l hl hv
    have hcongr := storeLanes_congr env.L (load_visible env s)
      (fun l => s.write_pos 0 + (List.range l).countP (load_visible env s))
      (fun l => s.write_pos 0 + (List.range l).countP (load_visible env s) * 1)
      (fun l => [load_t_offset env s l]) s.pstack (fun l _ => by simp)
    rw [hcongr]
    have := (storeLanes_compact 1 env.L (load_visible env s) (fun l => [load_t_offset env s l])
      (fun _ => rfl) (s.write_pos 0) s.pstack).2 l hl hv
    rw [readWords_one, Nat.mul_one] at this
    simpa [pgstromStairlikeBinaryCount] using this
  · exact storeLanes_list env.L (load_visible env s) (load_t_offset env s) (s.write_pos 0) s.pstack
  · intro a ha
    have hcongr := storeLanes_congr env.L (load_visible env s)
      (fun l => s.write_pos 0 + (List.range l).countP (load_visible env s))
      (fun l => s.write_pos 0 + (List.range l).countP (load_visible env s) * 1)
      (fun l => [load_t_offset env s l]) s.pstack (fun l _ => by simp)
    rw [hcongr]
    exact (storeLanes_compact 1 env.L (load_visible env s) (fun l => [load_t_offset env s l])
      (fun _ => rfl) (s.write_pos 0) s.pstack).1 a (Or.inl ha)

/-- Witness of C13: the first source-loader call on two outer rows. -/
theorem C13_load_source_compaction_witness :
    (gpujoin_load_source dive_env (demo_init dive_env)).2.write_pos 0
        = (demo_init dive_env).write_pos 0
          + syncthreads_count dive_env.L (load_visible dive_env (demo_init dive_env))
    ∧ readWords (gpujoin_load_source dive_env (demo_init dive_env)).2.pstack
          (PSTACK_DEPTH dive_env 0 + (demo_init dive_env).write_pos 0)
          (syncthreads_count dive_env.L (load_visible dive_env (demo_init dive_env)))
        = ((List.range dive_env.L).filter
            (fun l => load_visible dive_env (demo_init dive_env) l)).map
            (load_t_offset dive_env (demo_init dive_env)) :=
  have h := C13_load_source_compaction dive_env (demo_init dive_env)
    (by decide) (by decide) (by decide)
  ⟨h.1, h.2.2.1⟩

/-- C14. `gpujoin_rewind_stack` called with depth d > 0 returns a depth k < d
such that no depth strictly between k and d holds unread rows and either k
holds unread rows (k is the largest such depth below d) or k = 0; afterwards
every depth strictly between k and d, and depth k too when it holds no unread
rows (the walk then ended at depth 0), has both cursors and every scan state
zero and every matched flag clear; the cursors of a returned depth with unread
rows, of every depth below it and of every depth d and above are unchanged. -/
theorem C14_rewind_stack (d : Nat) (s : State) (hd : 0 < d) :
    ∃ k : Nat, (gpujoin_rewind_stack d s).1 = (k : Int) ∧ k < d
      ∧ (∀ j, k < j → j < d → ¬ s.read_pos j < s.write_pos j)
      ∧ (s.read_pos k < s.write_pos k ∨ k = 0)
      ∧ (∀ j, k < j → j < d → depth_reset (gpujoin_rewind_stack d s).2 j)
      ∧ (¬ s.read_pos k < s.write_pos k → depth_reset (gpujoin_rewind_stack d s).2 k)
      ∧ (s.read_pos k < s.write_pos k →
          (gpujoin_rewind_stack d s).2.read_pos k = s.read_pos k
          ∧ (gpujoin_rewind_stack d s).2.write_pos k = s.write_pos k)
      ∧ (∀ j, j < k →
          (gpujoin_rewind_stack d s).2.read_pos j = s.read_pos j
          ∧ (gpujoin_rewind_stack d s).2.write_pos j = s.write_pos j)
      ∧ (∀ j, d ≤ j →
          (gpujoin_rewind_stack d s).2.read_pos j = s.read_pos j
          ∧ (gpujoin_rewind_stack d s).2.write_pos j = s.write_pos j) := by
  obtain ⟨k, h1, h2, h3, h4, h5, h6, h7, h8⟩ := rewind_spec d s hd
  exact ⟨k, h1, h2, h3, h4, h5, h6, h7, h8,
    fun j hj => ⟨(rewind_frame d s j hj).1, (rewind_frame d s j hj).2.1⟩⟩

/-- Witness of C14: the rewind from depth 1 once depth 0 is drained. -/
theorem C14_rewind_stack_witness :
    ∃ k : Nat, (gpujoin_rewind_stack 1 (demo_state demo_env 3)).1 = (k : Int) ∧ k < 1
      ∧ (¬ (demo_state demo_env 3).read_pos k < (demo_state demo_env 3).write_pos k →
          depth_reset (gpujoin_rewind_stack 1 (demo_state demo_env 3)).2 k) :=
  have h := C14_rewind_stack 1 (demo_state demo_env 3) (by decide)
  h.elim (fun k hk => ⟨k, hk.1, hk.2.1, hk.2.2.2.2.2.1⟩)

/-- C15 (evaluated at a failing input). Two lanes, three rooms. The projection
finds depth 1 fully read (read_pos[1] = 4 >= write_pos[1] = 3) and rewinds:
it returns 0 and both cursors of depth 1 are as before, not zero. The next
two combinations are appended at slots 3 and 4, and the next projection call
starts at the read cursor 4: [100, 200] in slot 3 is never handed to the
projection. -/
theorem C15_projection_rewind_keeps_depth_n :
    (run_dispatch skip_env 7 (0, demo_init skip_env)).1 = 2
    ∧ (demo_state skip_env 7).read_pos 1 = 4
    ∧ (demo_state skip_env 7).write_pos 1 = 3
    ∧ (gpujoin_projection_row skip_env (demo_state skip_env 7)).1 = 0
    ∧ (gpujoin_projection_row skip_env (demo_state skip_env 7)).2.read_pos 1 = 4
    ∧ (gpujoin_projection_row skip_env (demo_state skip_env 7)).2.write_pos 1 = 3
    ∧ (demo_state skip_env 10).write_pos 1 = 5
    ∧ readWords (demo_state skip_env 10).pstack (PSTACK_DEPTH skip_env 1 + 6) 4
        = [100, 200, 108, 200]
    ∧ (demo_state skip_env 10).proj_calls = [[100, 200], [108, 200], [100, 208]]
    ∧ (demo_state skip_env 11).proj_calls = [[100, 200], [108, 200], [100, 208], [108, 200]]
    ∧ (demo_state skip_env 11).read_pos 1 = 6 := by
  decide!

/-- C16 (evaluated at a failing input). Hash join at depth 1, lane 0 probing a
chain of two entries with the hash of its key. The pass evaluates the
predicate at the first entry (offset 192) and leaves `l_state[1]` at 0,
neither 192 nor `UINT_MAX`; the next pass visits the first entry again and
appends [100, 200] a second time; the second entry (offset 200) is never
visited, and after any number of passes the scan state is still 0 and
read_pos[0] has not advanced. -/
theorem C16_hash_join_never_records_scan_state :
    ((hash_khitem (equiv_env false) 1 (demo_state (equiv_env false) 1) 0).map
        (fun it => it.t_off) = [192, 200])
    ∧ (gpujoin_exec_hashjoin (equiv_env false) 1 (demo_state (equiv_env false) 1)).2.l_state 0 1
        = 0
    ∧ ((hash_khitem (equiv_env false) 1
          (gpujoin_exec_hashjoin (equiv_env false) 1 (demo_state (equiv_env false) 1)).2 0).map
        (fun it => it.t_off) = [192, 200])
    ∧ readWords (hashjoin_passes (equiv_env false) 1 2 (demo_state (equiv_env false) 1)).pstack
        (PSTACK_DEPTH (equiv_env false) 1) 4 = [100, 200, 100, 200]
    ∧ ∀ n, (hashjoin_passes (equiv_env false) 1 n (demo_state (equiv_env false) 1)).l_state 0 1
          = 0
        ∧ (hashjoin_passes (equiv_env false) 1 n (demo_state (equiv_env false) 1)).read_pos 0
          = 0 := by
  refine ⟨by decide, by decide, by decide, by decide, fun n => ?_⟩
  have h := hashjoin_passes_never_advance (equiv_env false) 1 (by decide) n
    (demo_state (equiv_env false) 1) (by decide)
  have h0 : (demo_state (equiv_env false) 1).read_pos 0 = 0 := by decide
  have h1 := h.2 0
  exact ⟨h.1 0 (by decide), by omega⟩

/-- C17 (evaluated at a failing input). Two lanes, four rooms per depth, one
outer row matching five inner rows. After the projection has returned to
depth 1 twice, the nested loop is called with write_pos[1] = 4 and appends a
fifth combination: write_pos[1] becomes 5 > pstack_nrooms, and the entry
[100, 232] is stored at word 12, where the region of depth 2 begins. -/
theorem C17_write_cursor_passes_nrooms :
    Reach overflow_env (fun _ => True) (demo_state overflow_env 8)
    ∧ overflow_env.L ≤ overflow_env.pstack_nrooms
    ∧ overflow_env.pstack_nrooms = 4
    ∧ (run_dispatch overflow_env 7 (0, demo_init overflow_env)).1 = 1
    ∧ (demo_state overflow_env 7).write_pos 1 = 4
    ∧ (gpujoin_exec_nestloop overflow_env 1 (demo_state overflow_env 7)).map
        (fun r => (r.1, r.2.write_pos 1, readWords r.2.pstack 12 2))
      = some (2, 5, [100, 232])
    ∧ PSTACK_DEPTH overflow_env 1 + overflow_env.pstack_nrooms * 2 = 12
    ∧ PSTACK_DEPTH overflow_env 2 = 12
    ∧ (demo_state overflow_env 8).write_pos 1 = 5 :=
  ⟨reach_run overflow_env (fun _ => True) 8 (0, demo_init overflow_env) (Reach.init 0 _ _)
    (fun _ _ => trivial), by decide!⟩

/-- C18. Hash join, probing pass, a lane in range on first touch whose
`gpujoin_hash_value` reports null keys: `khitem` stays NULL (no bucket is
probed), `gpujoin_join_quals` is not evaluated for the lane, its matched flag
is what it was, an entry of the outer-join map that is set after the pass was
set before or was marked by another lane, and if the lane appends an entry
(slot arithmetic in the `cl_uint` range) it is its outer combination followed
by the inner locator 0. -/
theorem C18_null_keys_probe_nothing (env : Env) (d : Nat) (s : State) (lane : Nat)
    (hl : lane < env.L)
    (hor : syncthreads_or env.L (fun l => decide (s.l_state l d ≠ UINT_MAX)) = true)
    (hread : s.read_pos (d - 1) < s.write_pos (d - 1))
    (h0 : s.l_state lane d = 0) (hin : in_range s d lane = true)
    (hnull : (hash_out env d s lane).is_null_keys = true) :
    hash_khitem env d s lane = []
    ∧ hashjoin_quals env d s lane = none
    ∧ (gpujoin_exec_hashjoin env d s).2.matched lane d = s.matched lane d
    ∧ (∀ a, (gpujoin_exec_hashjoin env d s).2.ojmap a = true →
        s.ojmap a = true
        ∨ ∃ base l i, KERN_MULTIRELS_OUTER_JOIN_MAP env d = some base ∧ l < env.L ∧ l ≠ lane
            ∧ hashjoin_mark env d s l = some i ∧ a = base + i)
    ∧ ((s.write_pos d + env.L) * (d + 1) < 4294967296 →
        hashjoin_result env d s lane = true →
        readWords (gpujoin_exec_hashjoin env d s).2.pstack
            (PSTACK_DEPTH env d
              + (s.write_pos d + pgstromStairlikeBinaryCount (hashjoin_result env d s) lane)
                * (d + 1)) (d + 1)
          = outer_comb env s d lane ++ [0]) := by
  have hk : hash_khitem env d s lane = [] := by
    simp [hash_khitem, hash_start, h0, hin, hnull]
  have hq : hashjoin_quals env d s lane = none := by
    simp [hashjoin_quals, hk]
  have hm : hashjoin_mark env d s lane = none := by
    simp [hashjoin_mark, hk]
  have hloc : hashjoin_loc env d s lane = 0 := by
    simp [hashjoin_loc, hk]
  rw [hashjoin_probe_eq env d s hor hread]
  refine ⟨hk, hq, ?_, ?_, ?_⟩
  · rw [(exec_append_matched _ _ _ _ _ _).1]
    simp [updEach, hashjoin_matched, hq]
  · intro a ha
    rw [(exec_append_matched _ _ _ _ _ _).2] at ha
    rcases ojmap_mark_origin _ _ _ _ a ha with h1 | ⟨base, l, i, hb, hlt, hmk, hai⟩
    · exact Or.inl h1
    · refine Or.inr ⟨base, l, i, hb, hlt, ?_, hmk, hai⟩
      intro hll
      subst hll
      rw [hm] at hmk
      exact Option.noConfusion hmk
  · intro hnw hres
    have := (exec_append_entries env d
      { s with
        matched := updEach s.matched d (hashjoin_matched env d s)
        errcode := hashjoin_errcode env d s
        ojmap := ojmap_mark env.L (KERN_MULTIRELS_OUTER_JOIN_MAP env d)
          (hashjoin_mark env d s) s.ojmap }
      (hashjoin_result env d s) (outer_addr env s d) (hashjoin_loc env d s) hnw).2.1 lane hl hres
    rw [hloc] at this
    exact this

/-- Witness of C18: the first probing pass of a left-outer hash join over an
outer row with a null key. -/
theorem C18_null_keys_probe_nothing_witness :
    (gpujoin_exec_hashjoin null_key_env 1 (demo_state null_key_env 1)).2.matched 0 1
        = (demo_state null_key_env 1).matched 0 1
    ∧ readWords (gpujoin_exec_hashjoin null_key_env 1 (demo_state null_key_env 1)).2.pstack
          (PSTACK_DEPTH null_key_env 1
            + ((demo_state null_key_env 1).write_pos 1
                + pgstromStairlikeBinaryCount
                    (hashjoin_result null_key_env 1 (demo_state null_key_env 1)) 0)
              * (1 + 1)) (1 + 1)
        = outer_comb null_key_env (demo_state null_key_env 1) 1 0 ++ [0] :=
  have h := C18_null_keys_probe_nothing null_key_env 1 (demo_state null_key_env 1) 0
    (by decide) (by decide) (by decide) (by decide) (by decide) (by decide)
  ⟨h.2.2.1, h.2.2.2.2 (by decide) (by decide)⟩

/-- C19 (evaluated at a failing input). Left-outer nested loop at depth 1, second
batch of depth 0 (read_pos[0] = 2): lane 0 holds the outer combination [116],
which matched, lane 1 holds [124], which did not. The left-outer pass appends
one entry for lane 0, and its outer part is [100], the combination at index 0
of the depth-0 buffer, not the one at index read_pos[0] + lane = 2. -/
theorem C19_left_outer_entry_copies_first_combination :
    (left_outer4_env.chunks 0).left_outer = true
    ∧ (demo_state left_outer4_env 6).read_pos 0 = 2
    ∧ (demo_state left_outer4_env 6).l_state 0 1 = (left_outer4_env.inner 1).nitems
    ∧ outer_comb left_outer4_env (demo_state left_outer4_env 6) 1 0 = [116]
    ∧ outer_comb left_outer4_env (demo_state left_outer4_env 6) 1 1 = [124]
    ∧ (demo_state left_outer4_env 6).matched 0 1 = true
    ∧ (demo_state left_outer4_env 6).matched 1 1 = false
    ∧ (demo_state left_outer4_env 6).write_pos 1 = 1
    ∧ (gpujoin_exec_nestloop left_outer4_env 1 (demo_state left_outer4_env 6)).map
        (fun r => (r.1, r.2.write_pos 1,
          readWords r.2.pstack (PSTACK_DEPTH left_outer4_env 1 + 2) 2))
      = some (1, 2, [100, 0])
    ∧ readWords (demo_state left_outer4_env 6).pstack (PSTACK_DEPTH left_outer4_env 0) 1
        = [100] := by
  decide!

/-- C21. With at least one inner relation (N >= 1): `gpujoin_load_source`
returns -1, 0 or 1; a join executor called at a depth d in 1..N returns a
value in 0..d+1; `gpujoin_projection_row` returns -1 or a value in 0..N; depth
0 is dispatched to the source loader, depth N+1 to the projection, a depth d
in 1..N to the nested loop when `chunks[d-1].is_nestloop` is set and to the
hash join otherwise; and at the head of every iteration of the traversal loop,
started at depth 0, the depth is -1 (the loop exits) or lies in 0..N+1. -/
theorem C21_depth_range_and_dispatch (env : Env) (hN : 1 ≤ env.num_rels) :
    (∀ s, (gpujoin_load_source env s).1 = -1 ∨ (gpujoin_load_source env s).1 = 0
        ∨ (gpujoin_load_source env s).1 = 1)
    ∧ (∀ d s r s', 1 ≤ d → d ≤ env.num_rels →
        gpujoin_exec_nestloop env d s = some (r, s') → 0 ≤ r ∧ r ≤ (d : Int) + 1)
    ∧ (∀ d s, 1 ≤ d → d ≤ env.num_rels →
        0 ≤ (gpujoin_exec_hashjoin env d s).1
          ∧ (gpujoin_exec_hashjoin env d s).1 ≤ (d : Int) + 1)
    ∧ (∀ s, (gpujoin_projection_row env s).1 = -1
        ∨ (0 ≤ (gpujoin_projection_row env s).1
            ∧ (gpujoin_projection_row env s).1 ≤ (env.num_rels : Int)))
    ∧ (∀ s, gpujoin_dispatch env 0 s = some (gpujoin_load_source env s))
    ∧ (∀ s, gpujoin_dispatch env (env.num_rels + 1) s
        = some (gpujoin_projection_row env s))
    ∧ (∀ d s, 1 ≤ d → d ≤ env.num_rels →
        gpujoin_dispatch env d s
          = if (env.chunks (d - 1)).is_nestloop then gpujoin_exec_nestloop env d s
            else some (gpujoin_exec_hashjoin env d s))
    ∧ (∀ p pstack ojmap n,
        -1 ≤ (run_dispatch env n (0, gpujoin_init env p pstack ojmap)).1
          ∧ (run_dispatch env n (0, gpujoin_init env p pstack ojmap)).1
              ≤ (env.num_rels : Int) + 1) := by
  refine ⟨load_source_result env, ?_, ?_, ?_, dispatch_load_source env, ?_, ?_, ?_⟩
  · intro d s r s' _ _ h
    exact nestloop_result_range env d s r s' h
  · intro d s _ _
    exact hashjoin_result_range env d s
  · intro s
    rcases projection_result env s hN with h | h | h
    · exact Or.inl h
    · exact Or.inr (by omega)
    · exact Or.inr (by omega)
  · intro s
    exact dispatch_projection env _ s (by omega)
  · intro d s h1 h2
    cases hk : (env.chunks (d - 1)).is_nestloop with
    | true => simpa using dispatch_nestloop env d s h1 h2 hk
    | false => simpa using dispatch_hashjoin env d s h1 h2 hk
  · intro p pstack ojmap n
    exact run_depth_range env hN n _ ⟨by show (-1 : Int) ≤ 0; omega, by show (0 : Int) ≤ _; omega⟩

/-- Witness of C21: two lanes, three rooms, one nested-loop relation. The
third iteration starts at depth 2 = N + 1, within the range, and is the
projection. -/
theorem C21_depth_range_and_dispatch_witness :
    1 ≤ dive_env.num_rels
    ∧ (-1 ≤ (run_dispatch dive_env 2 (0, demo_init dive_env)).1
        ∧ (run_dispatch dive_env 2 (0, demo_init dive_env)).1
            ≤ (dive_env.num_rels : Int) + 1)
    ∧ (gpujoin_load_source dive_env (demo_init dive_env)).1 = 1
    ∧ gpujoin_dispatch dive_env (dive_env.num_rels + 1) (demo_state dive_env 2)
        = some (gpujoin_projection_row dive_env (demo_state dive_env 2)) :=
  have h := C21_depth_range_and_dispatch dive_env (by decide)
  ⟨by decide, h.2.2.2.2.2.2.2 0 (fun _ => 0) (fun _ => false) 2, by decide,
    h.2.2.2.2.2.1 (demo_state dive_env 2)⟩

/-- C22 (evaluated at a failing input). Two lanes, three rooms, two outer rows
that both match the one row of a nested-loop relation (N = 1). The first two
iterations start at depths 0 and 1 and pass the assertion
`depth <= kmrels->nrels`; the nested loop finds no room for another batch and
returns 2, so the third iteration starts at depth 2 > 1: the assertion fails
there, and that iteration is the projection, which emits the two
combinations. In general the branch `depth > kgjoin->num_rels` of the loop is
taken exactly when the assertion has failed. -/
theorem C22_loop_assertion_fails_at_projection :
    dive_env.num_rels = 1
    ∧ dive_env.L ≤ dive_env.pstack_nrooms
    ∧ (List.range 3).map (fun n => (run_dispatch dive_env n (0, demo_init dive_env)).1)
        = [0, 1, 2]
    ∧ (List.range 3).map (fun n =>
          main_loop_assert dive_env (run_dispatch dive_env n (0, demo_init dive_env)).1)
        = [true, true, false]
    ∧ (gpujoin_exec_nestloop dive_env 1 (demo_state dive_env 1)).map Prod.fst = some 2
    ∧ gpujoin_dispatch dive_env 2 (demo_state dive_env 2)
        = some (gpujoin_projection_row dive_env (demo_state dive_env 2))
    ∧ (gpujoin_projection_row dive_env (demo_state dive_env 2)).2.proj_calls
        = [[100, 200], [108, 200]]
    ∧ (∀ (env : Env) (d : Nat), env.num_rels < d ↔ main_loop_assert env d = false) := by
  refine ⟨by decide!, by decide!, by decide!, by decide!, by decide!, ?_, by decide!, ?_⟩
  · exact dispatch_projection dive_env 2 _ (by decide)
  · intro env d
    simp [main_loop_assert]

/-- C23. Let the products stay within `cl_uint`: `pstack_nrooms * (M+1) * (M+2)`
for a depth bound M (every depth d is covered by M = d; M =
`GPUJOIN_MAX_DEPTH` gives the whole stack of a group). For every depth
d <= M: `PSTACK_DEPTH(d)` is `pstack_nrooms * d * (d+1) / 2`; the region of
`pstack_nrooms` entries of d+1 words ends exactly at `PSTACK_DEPTH(d+1)`; the
entries 0 .. pstack_nrooms-1 are consecutive and lie inside the region; the
regions of distinct depths share no word; the regions of depths 0..M cover
exactly the words below `pstack_nrooms * (M+1) * (M+2) / 2`, which is the
distance between the bases of consecutive groups; and words of the stacks of
distinct groups differ. -/
theorem C23_pstack_regions (env : Env) (M : Nat)
    (hM : env.pstack_nrooms * ((M + 1) * (M + 2)) < 4294967296) :
    (∀ d, d ≤ M → PSTACK_DEPTH env d = env.pstack_nrooms * d * (d + 1) / 2)
    ∧ (∀ d, d ≤ M →
        PSTACK_DEPTH env d + env.pstack_nrooms * (d + 1) = PSTACK_DEPTH env (d + 1))
    ∧ (∀ d i, d ≤ M → i < env.pstack_nrooms →
        in_pstack_region env d (pstack_entry env d i)
        ∧ pstack_entry env d i + (d + 1) = pstack_entry env d (i + 1)
        ∧ pstack_entry env d i + (d + 1)
            ≤ PSTACK_DEPTH env d + env.pstack_nrooms * (d + 1))
    ∧ (∀ d e a, d ≤ M → e ≤ M → d ≠ e →
        in_pstack_region env d a → ¬ in_pstack_region env e a)
    ∧ (∀ a, (∃ d, d ≤ M ∧ in_pstack_region env d a)
        ↔ a < env.pstack_nrooms * (M + 1) * (M + 2) / 2)
    ∧ (∀ g, (g + 1) * env.pstack_nrooms * ((M + 1) * (M + 2)) < 4294967296 →
        pstack_base M env.pstack_nrooms (g + 1)
          = pstack_base M env.pstack_nrooms g
            + env.pstack_nrooms * (M + 1) * (M + 2) / 2)
    ∧ (∀ g h a b, g ≠ h →
        g * env.pstack_nrooms * ((M + 1) * (M + 2)) < 4294967296 →
        h * env.pstack_nrooms * ((M + 1) * (M + 2)) < 4294967296 →
        a < env.pstack_nrooms * (M + 1) * (M + 2) / 2 →
        b < env.pstack_nrooms * (M + 1) * (M + 2) / 2 →
        pstack_base M env.pstack_nrooms g + a ≠ pstack_base M env.pstack_nrooms h + b) := by
  have hS := tri_assoc_succ env.pstack_nrooms M
  refine ⟨?_, ?_, ?_, ?_, ?_, ?_, ?_⟩
  · intro d hd
    have h1 := tri_bound env.pstack_nrooms d M (by omega)
    rw [tri_assoc, PSTACK_DEPTH_eq env d (by omega)]
  · intro d hd
    have h2 := tri_bound_succ env.pstack_nrooms d M hd
    exact PSTACK_DEPTH_succ env d (by omega)
  · intro d i hd hi
    have e0 := pstack_entry_eq env M d i hM hd (by omega)
    have e1 := pstack_entry_eq env M d (i + 1) hM hd (by omega)
    have h1 := tri_bound env.pstack_nrooms d M (by omega)
    have hp := PSTACK_DEPTH_eq env d (by omega)
    have hmul : (i + 1) * (d + 1) = i * (d + 1) + (d + 1) := Nat.succ_mul _ _
    have hle : (i + 1) * (d + 1) ≤ env.pstack_nrooms * (d + 1) :=
      Nat.mul_le_mul_right _ (by omega)
    refine ⟨?_, by omega, by omega⟩
    unfold in_pstack_region
    omega
  · intro d e a hd he hne h1 h2
    rw [in_pstack_region_iff env M d a hM hd] at h1
    rw [in_pstack_region_iff env M e a hM he] at h2
    rcases Nat.lt_or_gt_of_ne hne with h | h
    · exact tri_band_disjoint _ d e a h h1.2 h2.1
    · exact tri_band_disjoint _ e d a h h2.2 h1.1
  · intro a
    rw [hS]
    constructor
    · rintro ⟨d, hd, h⟩
      rw [in_pstack_region_iff env M d a hM hd] at h
      have := Nat.mul_le_mul_left env.pstack_nrooms (tri_mono_succ_succ d M hd)
      omega
    · intro h
      obtain ⟨d, hd, h1, h2⟩ := tri_cover _ a M h
      exact ⟨d, hd, (in_pstack_region_iff env M d a hM hd).2 ⟨h1, h2⟩⟩
  · intro g hg
    have hle : g * env.pstack_nrooms * ((M + 1) * (M + 2))
        ≤ (g + 1) * env.pstack_nrooms * ((M + 1) * (M + 2)) :=
      Nat.mul_le_mul_right _ (Nat.mul_le_mul_right _ (by omega))
    rw [hS, pstack_base_eq M _ (g + 1) hg, pstack_base_eq M _ g (by omega), Nat.succ_mul]
  · intro g h a b hne hg hh ha hb
    rw [hS] at ha hb
    rw [pstack_base_eq M _ g hg, pstack_base_eq M _ h hh]
    rcases Nat.lt_or_gt_of_ne hne with hlt | hlt
    · have := Nat.mul_le_mul_right (env.pstack_nrooms * ((M + 1) * (M + 2) / 2))
        (show g + 1 ≤ h from hlt)
      rw [Nat.succ_mul] at this
      omega
    · have := Nat.mul_le_mul_right (env.pstack_nrooms * ((M + 1) * (M + 2) / 2))
        (show h + 1 ≤ g from hlt)
      rw [Nat.succ_mul] at this
      omega

/-- Witness of C23: 100 rooms and depths up to 2. The region of depth 1 starts
at word 100 and ends at word 300, where the region of depth 2 begins; the
three regions end at word 600; the base of group 1 is 600 words past the base
of group 0. -/
theorem C23_pstack_regions_witness :
    demo_env.pstack_nrooms * ((2 + 1) * (2 + 2)) < 4294967296
    ∧ PSTACK_DEPTH demo_env 1 = 100
    ∧ PSTACK_DEPTH demo_env 1 + demo_env.pstack_nrooms * (1 + 1) = PSTACK_DEPTH demo_env (1 + 1)
    ∧ PSTACK_DEPTH demo_env 2 = 300
    ∧ ¬ in_pstack_region demo_env 2 (pstack_entry demo_env 1 99 + 1)
    ∧ pstack_base 2 demo_env.pstack_nrooms (0 + 1)
        = pstack_base 2 demo_env.pstack_nrooms 0 + demo_env.pstack_nrooms * (2 + 1) * (2 + 2) / 2 :=
  have h := C23_pstack_regions demo_env 2 (by decide)
  ⟨by decide, by decide, h.2.1 1 (by decide), by decide,
    h.2.2.2.1 1 2 _ (by decide) (by decide) (by decide) (by decide),
    h.2.2.2.2.2.1 0 (by decide)⟩

end GpuJoin
